import Mathlib

/-!
# Verification of the OAQL2 scanner and grammar validator

Shallow embedding of the hand-written lexical scanner (`Lexer.java`) and the
recursive-descent grammar validator (`SimpleParser`) of the repository, with
theorems settling the specification claims about them.

The scanner is embedded over `List Char`; the cursor keeps only the unread
suffix together with the line/column counters, which is faithful because the
Java scanner reads the input strictly left to right (`index` only grows and
every read is at or after `index`).  Java `int` arithmetic on columns is
embedded as `Int` where subtraction occurs.  The JDK character classes
`Character.isLetter` / `Character.isDigit` / `Character.isLetterOrDigit`
are embedded by their ASCII restrictions (`Char.isAlpha` / `Char.isDigit` /
`Char.isAlphanum`); every claim is about ASCII-level behaviour.
-/

deriving instance DecidableEq for Except

namespace Oaql2

/-- Token payloads: the Java code stores `String`, `Double`, `Boolean` or
`Integer` values in `Symbol.value`.  A numeric payload is embedded by the
exact literal text that Java passes to `Double.parseDouble`; the function
`numValue` below gives its exact mathematical value. -/
inductive Payload where
  | str (s : String)
  | num (s : String)
  | bool (b : Bool)
  | int (i : Int)
  deriving DecidableEq, Repr

/-- The CUP `Symbol` as the scanner builds it: token kind (the constants of
`sym.java`), the `left`/`right` coordinates (which the scanner fills with the
line and the column), and the optional payload. -/
structure Symbol where
  sym : Nat
  line : Nat
  column : Int
  value : Option Payload
  deriving DecidableEq, Repr

/-- Scanner cursor: the unread suffix of the input plus the position
counters (`index` of the Java code is determined by how much of the input
has been consumed). -/
structure Cursor where
  rest : List Char
  line : Nat
  column : Nat
  deriving DecidableEq, Repr

/-- The scanner's fatal lexical errors, with the positions the Java `Error`
messages carry. -/
inductive LexError where
  | illegalChar (c : Char) (line column : Nat)
  | unterminated (line column : Nat)
  | invalidNumber (line column : Nat)
  deriving DecidableEq, Repr

/-- `advance()`: consume one character; on a newline bump the line and reset
the column, otherwise bump the column.  At end of input it is a no-op. -/
def advance : Cursor → Cursor
  | ⟨[], l, col⟩ => ⟨[], l, col⟩
  | ⟨ch :: rs, l, col⟩ => if ch = '\n' then ⟨rs, l + 1, 0⟩ else ⟨rs, l, col + 1⟩

/-- Iterated `advance()` (the Java code advances in per-character loops). -/
def advanceN : Cursor → Nat → Cursor
  | c, 0 => c
  | c, n + 1 => advanceN (advance c) n

/-- The whitespace set of `skipWhitespace()`. -/
def isWs (c : Char) : Bool :=
  c = ' ' || c = '\t' || c = '\r' || c = '\n' || c = '\x0c'

/-- The loop body of `skipWhitespace()`, running directly on the components. -/
def skipWsL : List Char → Nat → Nat → Cursor
  | [], l, col => ⟨[], l, col⟩
  | ch :: rs, l, col =>
    if isWs ch then
      if ch = '\n' then skipWsL rs (l + 1) 0 else skipWsL rs l (col + 1)
    else ⟨ch :: rs, l, col⟩

/-- `skipWhitespace()`. -/
def skipWhitespace (c : Cursor) : Cursor := skipWsL c.rest c.line c.column

/-- The escape translation of `readString()`: the five recognized escapes
are translated, any other escaped character is copied literally. -/
def escapeChar (e : Char) : Char :=
  if e = 't' then '\t'
  else if e = 'n' then '\n'
  else if e = 'r' then '\r'
  else if e = '"' then '"'
  else if e = '\\' then '\\'
  else e

/-- The scanning loop of `readString()`, entered just past the opening
quote.  Returns the accumulated payload and the cursor past the closing
quote, or `none` when the loop falls off the end of the input (missing
closing quote, including a trailing lone backslash). -/
def readStringLoop : List Char → Nat → Nat → String → Option (String × Cursor)
  | [], _, _, _ => none
  | ch :: rs, l, col, acc =>
    if ch = '"' then some (acc, ⟨rs, l, col + 1⟩)
    else if ch = '\\' then
      match rs with
      | [] => none
      | e :: rs2 =>
        if e = '\n' then readStringLoop rs2 (l + 1) 0 (acc.push (escapeChar e))
        else readStringLoop rs2 l (col + 2) (acc.push (escapeChar e))
    else if ch = '\n' then readStringLoop rs (l + 1) 0 (acc.push ch)
    else readStringLoop rs l (col + 1) (acc.push ch)

/-- `readString()`: remembers the opening quote's position, consumes the
quote and runs the loop; an exhausted loop is the fatal
"Unterminated string literal" error at the opening quote's position. -/
def readString (c : Cursor) : Except LexError (Symbol × Cursor) :=
  let c1 := advance c
  match readStringLoop c1.rest c1.line c1.column "" with
  | some (s, c2) => .ok (⟨31, c.line, (c.column : Int), some (.str s)⟩, c2)
  | none => .error (.unterminated c.line c.column)

/-- `String.startsWith(operator, index)` on the unread suffix. -/
def startsWithChars : List Char → List Char → Bool
  | [], _ => true
  | _ :: _, [] => false
  | p :: ps, q :: qs => p == q && startsWithChars ps qs

/-- `isIdentifierStart`: a letter or underscore. -/
def isIdentifierStart (c : Char) : Bool := c.isAlpha || c = '_'

/-- `isIdentifierPart`: letter, digit, underscore or hyphen. -/
def isIdentifierPart (c : Char) : Bool := c.isAlphanum || c = '_' || c = '-'

/-- `isNumberStart`, reading the unread suffix (current character first):
a digit always starts a number; a sign starts one when the following
character is a digit or a dot; a dot when the following character is a
digit.  (The dot clause is unreachable from `next_token`, which classifies
`.` as punctuation earlier.) -/
def isNumberStart : List Char → Bool
  | [] => false
  | v :: rs =>
    if v.isDigit then true
    else if v = '-' || v = '+' then
      match rs with
      | n :: _ => n.isDigit || n = '.'
      | [] => false
    else if v = '.' then
      match rs with
      | n :: _ => n.isDigit
      | [] => false
    else false

/-- The core `[0-9]*\.?[0-9]+` of the numeric pattern, matched at the start
of the list with Java's greedy-backtracking semantics: all leading digits,
then a fraction when a dot with at least one following digit is present;
otherwise the digits alone (requiring at least one digit overall). -/
def numCore (s : List Char) : Option (List Char) :=
  let d1 := s.takeWhile Char.isDigit
  let r1 := s.dropWhile Char.isDigit
  match r1 with
  | '.' :: r2 =>
    let d2 := r2.takeWhile Char.isDigit
    if d2 ≠ [] then some (d1 ++ '.' :: d2)
    else if d1 ≠ [] then some d1 else none
  | _ => if d1 ≠ [] then some d1 else none

/-- The optional exponent group `([eE][-+]?[0-9]+)?`: matched greedily, and
empty when the full group cannot match. -/
def expPart : List Char → List Char
  | [] => []
  | e :: rest =>
    if e = 'e' || e = 'E' then
      match rest with
      | [] => []
      | c :: rest2 =>
        if c = '-' || c = '+' then
          let d := rest2.takeWhile Char.isDigit
          if d ≠ [] then e :: c :: d else []
        else
          let d := rest.takeWhile Char.isDigit
          if d ≠ [] then e :: d else []
    else []

/-- A match of `[-+]?[0-9]*\.?[0-9]+([eE][-+]?[0-9]+)?` anchored at the
start of the list (Java backtracking semantics), returning the matched
characters. -/
def numMatchHere (s : List Char) : Option (List Char) :=
  match s with
  | [] => none
  | c :: rest =>
    if c = '-' || c = '+' then
      (numCore rest).map fun m => c :: (m ++ expPart (rest.drop m.length))
    else
      (numCore s).map fun m => m ++ expPart (s.drop m.length)

/-- `Matcher.find()` on the numeric pattern: the match at the leftmost
position where one exists, anywhere in the list. -/
def findNumFrom : List Char → Option (List Char)
  | [] => none
  | c :: rest =>
    match numMatchHere (c :: rest) with
    | some m => some m
    | none => findNumFrom rest

/-- `readNumber()` followed by the `Symbol` construction of `next_token`:
search the unread suffix for the numeric pattern (a failed search is the
fatal "Invalid numeric literal" error at the current position), then advance
by the length of the matched text — from the current position, which is the
match's own position only when the match is anchored — and build the number
token from the matched text. -/
def numberTok (c : Cursor) : Except LexError (Symbol × Cursor) :=
  match findNumFrom c.rest with
  | none => .error (.invalidNumber c.line c.column)
  | some m =>
    let c1 := advanceN c m.length
    .ok (⟨30, c1.line, (c1.column : Int) - m.length, some (.num m.asString)⟩, c1)

/-- The case-insensitive keyword table of `next_token`, applied to the
uppercased identifier text: kind plus the payload the keyword carries. -/
def keywordSym : String → Option (Nat × Option Payload)
  | "SELECT" => some (7, none)
  | "DISTINCT" => some (8, none)
  | "FROM" => some (9, none)
  | "JOIN" => some (10, none)
  | "ON" => some (11, none)
  | "AS" => some (12, none)
  | "WHERE" => some (13, none)
  | "AND" => some (14, none)
  | "OR" => some (15, none)
  | "XOR" => some (16, none)
  | "NOT" => some (17, none)
  | "IN" => some (18, none)
  | "IS" => some (19, none)
  | "NULL" => some (20, none)
  | "BETWEEN" => some (21, none)
  | "ORDER" => some (22, none)
  | "BY" => some (23, none)
  | "LIMIT" => some (24, none)
  | "ASC" => some (25, some (.int 1))
  | "DESC" => some (25, some (.int (-1)))
  | "LIKE" => some (26, none)
  | "TRUE" => some (27, some (.bool true))
  | "FALSE" => some (27, some (.bool false))
  | _ => none

/-- Keyword lookup falling back to a generic identifier token; `c1` is the
cursor just past the identifier text. -/
def keywordOrIdent (ident : List Char) (c1 : Cursor) : Symbol :=
  match keywordSym (ident.map Char.toUpper).asString with
  | some (k, p) => ⟨k, c1.line, (c1.column : Int) - ident.length, p⟩
  | none => ⟨29, c1.line, (c1.column : Int) - ident.length, some (.str ident.asString)⟩

/-- The identifier branch of `next_token`: read the identifier, then check
the compact qualified-field pattern (a dot immediately followed by an
identifier-starting character) before any keyword lookup; the field token
carries the full dotted text and the column `column - right.length - 1`. -/
def identTok (c : Cursor) : Symbol × Cursor :=
  let ident := c.rest.takeWhile isIdentifierPart
  let c1 := advanceN c ident.length
  match c1.rest with
  | '.' :: d :: _ =>
    if isIdentifierStart d then
      let c2 := advance c1
      let right := c2.rest.takeWhile isIdentifierPart
      let c3 := advanceN c2 right.length
      (⟨28, c3.line, (c3.column : Int) - right.length - 1,
        some (.str (ident.asString ++ "." ++ right.asString))⟩, c3)
    else (keywordOrIdent ident c1, c1)
  | _ => (keywordOrIdent ident c1, c1)

/-- A single-character punctuation token: advance once and report the
post-advance column minus one. -/
def punctTok (k : Nat) (c : Cursor) : Symbol × Cursor :=
  let c1 := advance c
  (⟨k, c1.line, (c1.column : Int) - 1, none⟩, c1)

/-- A comparison-operator token: advance over the operator text and carry
the mnemonic payload, with column `column - length`. -/
def opTok (mnemonic : String) (len : Nat) (c : Cursor) : Symbol × Cursor :=
  let c1 := advanceN c len
  (⟨6, c1.line, (c1.column : Int) - len, some (.str mnemonic)⟩, c1)

/-- The classification chain of `next_token` after whitespace skipping:
end sentinel, string literal, the five punctuation characters, the six
comparison operators longest first, identifiers/keywords/fields, numeric
literals, and otherwise the fatal "Illegal character" error. -/
def tokCore (c : Cursor) : Except LexError (Symbol × Cursor) :=
  match c.rest with
  | [] => .ok (⟨0, c.line, (c.column : Int), none⟩, c)
  | ch :: _ =>
    if ch = '"' then readString c
    else if ch = '(' then .ok (punctTok 1 c)
    else if ch = ')' then .ok (punctTok 2 c)
    else if ch = ',' then .ok (punctTok 3 c)
    else if ch = '.' then .ok (punctTok 4 c)
    else if ch = '*' then .ok (punctTok 5 c)
    else if startsWithChars ['<', '>'] c.rest then .ok (opTok "$ne" 2 c)
    else if startsWithChars ['>', '='] c.rest then .ok (opTok "$gte" 2 c)
    else if startsWithChars ['<', '='] c.rest then .ok (opTok "$lte" 2 c)
    else if startsWithChars ['='] c.rest then .ok (opTok "$eq" 1 c)
    else if startsWithChars ['>'] c.rest then .ok (opTok "$gt" 1 c)
    else if startsWithChars ['<'] c.rest then .ok (opTok "$lt" 1 c)
    else if isIdentifierStart ch then .ok (identTok c)
    else if isNumberStart c.rest then numberTok c
    else .error (.illegalChar ch c.line c.column)

/-- `next_token()`: skip whitespace, then classify. -/
def next_token (c : Cursor) : Except LexError (Symbol × Cursor) :=
  tokCore (skipWhitespace c)

/-- Pull tokens until the end sentinel (which is included in the result),
with explicit fuel; every non-sentinel token consumes at least one
character, so `input.length + 1` fuel always suffices. -/
def tokenize : Nat → Cursor → Except LexError (List Symbol)
  | 0, _ => .ok []
  | fuel + 1, c =>
    match next_token c with
    | .error e => .error e
    | .ok (t, c') =>
      if t.sym = 0 then .ok [t] else (tokenize fuel c').map (t :: ·)

/-- Value of a digit string. -/
def digitsVal (ds : List Char) : Nat :=
  ds.foldl (fun a c => a * 10 + (c.toNat - 48)) 0

/-- Exact mathematical value of a numeric literal (sign, integer part,
fraction, exponent).  This embeds `Double.parseDouble` on the literals the
claims mention, all of which have exactly representable values. -/
def numValueCore (l : List Char) : ℚ :=
  let d1 := l.takeWhile Char.isDigit
  let r1 := l.dropWhile Char.isDigit
  let fr := match r1 with
    | '.' :: t => (t.takeWhile Char.isDigit, t.dropWhile Char.isDigit)
    | _ => (([] : List Char), r1)
  let base : ℚ := (digitsVal d1 : ℚ) + (digitsVal fr.1 : ℚ) / (10 ^ fr.1.length)
  match fr.2 with
  | [] => base
  | e :: t =>
    if e = 'e' || e = 'E' then
      match t with
      | [] => base
      | s :: t2 =>
        if s = '-' then base / 10 ^ digitsVal (t2.takeWhile Char.isDigit)
        else if s = '+' then base * 10 ^ digitsVal (t2.takeWhile Char.isDigit)
        else base * 10 ^ digitsVal (t.takeWhile Char.isDigit)
    else base

/-- Exact value of a signed numeric literal. -/
def numValue (s : String) : ℚ :=
  match s.toList with
  | [] => 0
  | c :: rest =>
    if c = '-' then -(numValueCore rest)
    else if c = '+' then numValueCore rest
    else numValueCore (c :: rest)

/-!
## The grammar validator (`SimpleParser`)

The validator pulls one token of lookahead at a time.  It is embedded over a
finite token stream `List Symbol`; pulling past the end of the list yields
the scanner's stable end sentinel (`eofDefault`), mirroring the Java lexer,
which keeps returning the end-of-input token once exhausted.  Every parse
function threads the lookahead and the unread suffix; an error carries the
`ParseException` message together with the unread suffix at the point of
failure (the offending token is the lookahead, which is not part of the
suffix).
-/

/-- The stable end sentinel returned once the stream is exhausted. -/
def eofDefault : Symbol := ⟨0, 0, 0, none⟩

/-- `next()`: pull the next token from the stream. -/
def popTok : List Symbol → Symbol × List Symbol
  | [] => (eofDefault, [])
  | t :: ts => (t, ts)

/-- Result type of the parse functions: success value, or the
`ParseException` message paired with the unread suffix at the failure. -/
abbrev PRes (α : Type) := Except (String × List Symbol) α

/-- `tokenName()`: render the offending token as
`#<kind>` followed by ` (<payload>)` exactly when a payload is present. -/
def renderPayload : Payload → String
  | .str s => s
  | .num s => s
  | .bool b => if b then "true" else "false"
  | .int i => toString i

/-- The rendering of the lookahead used in every error message. -/
def tokenName (t : Symbol) : String :=
  "#" ++ toString t.sym ++
    (match t.value with
     | none => ""
     | some p => " (" ++ renderPayload p ++ ")")

/-- `match(tokenType)`: compare the lookahead's kind. -/
def matchTok (la : Symbol) (k : Nat) : Bool := la.sym == k

/-- `expect(tokenType, errorMessage)`: demand a kind, consuming the
lookahead on success. -/
def expectTok (la : Symbol) (toks : List Symbol) (k : Nat) (msg : String) :
    PRes (Symbol × List Symbol) :=
  if matchTok la k then .ok (popTok toks)
  else .error (msg ++ " but found: " ++ tokenName la, toks)

/-- `parseIdentifier(errorMessage)`: accept an identifier or a qualified
field. -/
def parseIdentifierTok (la : Symbol) (toks : List Symbol) (msg : String) :
    PRes (Symbol × List Symbol) :=
  if matchTok la 29 || matchTok la 28 then .ok (popTok toks)
  else .error (msg ++ " but found: " ++ tokenName la, toks)

/-- `parseOperand()`: an identifier/field, or a string/number/boolean/NULL
literal. -/
def parseOperand (la : Symbol) (toks : List Symbol) :
    PRes (Symbol × List Symbol) :=
  if matchTok la 29 || matchTok la 28 then .ok (popTok toks)
  else if matchTok la 31 || matchTok la 30 || matchTok la 27 || matchTok la 20 then
    .ok (popTok toks)
  else .error ("Expected operand but found: " ++ tokenName la, toks)

theorem popTok_snd_length (ts : List Symbol) : (popTok ts).2.length ≤ ts.length := by
  cases ts <;> simp [popTok]

theorem popTok_eq_length {ts : List Symbol} {la2 : Symbol} {ts2 : List Symbol}
    (h : popTok ts = (la2, ts2)) : ts2.length ≤ ts.length := by
  have h2 : (popTok ts).2 = ts2 := by rw [h]
  rw [← h2]
  exact popTok_snd_length ts

theorem parseIdentifierTok_ok_length {la : Symbol} {ts : List Symbol} {msg : String}
    {la2 : Symbol} {ts2 : List Symbol}
    (h : parseIdentifierTok la ts msg = .ok (la2, ts2)) : ts2.length ≤ ts.length := by
  unfold parseIdentifierTok at h
  split at h
  · injection h with h'
    exact popTok_eq_length h'
  · exact Except.noConfusion h

theorem parseOperand_ok_length {la : Symbol} {ts : List Symbol}
    {la2 : Symbol} {ts2 : List Symbol}
    (h : parseOperand la ts = .ok (la2, ts2)) : ts2.length ≤ ts.length := by
  unfold parseOperand at h
  split at h
  · injection h with h'
    exact popTok_eq_length h'
  · split at h
    · injection h with h'
      exact popTok_eq_length h'
    · exact Except.noConfusion h

theorem expectTok_ok_length {la : Symbol} {ts : List Symbol} {k : Nat} {msg : String}
    {la2 : Symbol} {ts2 : List Symbol}
    (h : expectTok la ts k msg = .ok (la2, ts2)) : ts2.length ≤ ts.length := by
  unfold expectTok at h
  split at h
  · injection h with h'
    exact popTok_eq_length h'
  · exact Except.noConfusion h

/-- One condition group: operand, comparison operator, operand. -/
def condGroup (la : Symbol) (toks : List Symbol) : PRes (Symbol × List Symbol) := do
  let (a, b) ← parseOperand la toks
  let (c, d) ← expectTok a b 6 "Expected comparison operator"
  parseOperand c d

theorem condGroup_ok_length {la : Symbol} {ts : List Symbol}
    {la2 : Symbol} {ts2 : List Symbol}
    (h : condGroup la ts = .ok (la2, ts2)) : ts2.length ≤ ts.length := by
  cases h1 : parseOperand la ts with
  | error e => simp [condGroup, h1, bind, Except.bind] at h
  | ok p1 =>
    obtain ⟨a, b⟩ := p1
    cases h2 : expectTok a b 6 "Expected comparison operator" with
    | error e => simp [condGroup, h1, h2, bind, Except.bind] at h
    | ok p2 =>
      obtain ⟨c, d⟩ := p2
      simp only [condGroup, h1, h2, bind, Except.bind] at h
      calc ts2.length ≤ d.length := parseOperand_ok_length h
        _ ≤ b.length := expectTok_ok_length h2
        _ ≤ ts.length := parseOperand_ok_length h1

/-- The `while (match(COMMA))` loop of `parseSelectList()`: each iteration
consumes the comma and demands another select-list name. -/
def parseSelectLoop (la : Symbol) (toks : List Symbol) : PRes (Symbol × List Symbol) :=
  if matchTok la 3 then
    match toks with
    | [] => parseIdentifierTok eofDefault [] "Expected field name after comma"
    | t :: ts =>
      match h : parseIdentifierTok t ts "Expected field name after comma" with
      | .error e => .error e
      | .ok (la2, ts2) => parseSelectLoop la2 ts2
  else .ok (la, toks)
  termination_by toks.length
  decreasing_by
    exact Nat.lt_succ_of_le (parseIdentifierTok_ok_length h)

/-- `parseSelectList()`: a lone `*`, or a name followed by the comma loop. -/
def parseSelectList (la : Symbol) (toks : List Symbol) : PRes (Symbol × List Symbol) :=
  if matchTok la 5 then .ok (popTok toks)
  else do
    let (la2, ts2) ← parseIdentifierTok la toks "Expected field name in SELECT list"
    parseSelectLoop la2 ts2

/-- The `while (match(AND) || match(OR) || match(XOR))` loop of
`parseCondition()`: each iteration consumes the connector and demands
another condition group. -/
def parseCondLoop (la : Symbol) (toks : List Symbol) : PRes (Symbol × List Symbol) :=
  if matchTok la 14 || matchTok la 15 || matchTok la 16 then
    match toks with
    | [] => condGroup eofDefault []
    | t :: ts =>
      match h : condGroup t ts with
      | .error e => .error e
      | .ok (la2, ts2) => parseCondLoop la2 ts2
  else .ok (la, toks)
  termination_by toks.length
  decreasing_by
    exact Nat.lt_succ_of_le (condGroup_ok_length h)

/-- `parseCondition()`: one condition group, then the connector loop. -/
def parseCondition (la : Symbol) (toks : List Symbol) : PRes (Symbol × List Symbol) := do
  let (a, b) ← condGroup la toks
  parseCondLoop a b

/-- The optional WHERE clause followed by the mandatory end-of-input check
(the tail of `parseQuery()` after the table name). -/
def parseWhereEnd (la : Symbol) (toks : List Symbol) : PRes (Symbol × List Symbol) := do
  let (la, ts) ← if matchTok la 13 then
      let p := popTok toks
      parseCondition p.1 p.2
    else .ok (la, toks)
  expectTok la ts 0 "Unexpected tokens after end of query"

/-- FROM, exactly one table name, then the optional WHERE clause and the
end-of-input check (the tail of `parseQuery()` after the select list). -/
def parseFromRest (la : Symbol) (toks : List Symbol) : PRes (Symbol × List Symbol) := do
  let (la, ts) ← expectTok la toks 9 "Expected FROM"
  let (la, ts) ← parseIdentifierTok la ts "Expected table name after FROM"
  parseWhereEnd la ts

/-- `parseQuery()`: SELECT, optional DISTINCT, select list, FROM, table
name, optional WHERE clause, end of input (one further token is pulled and
discarded by the final `expect`). -/
def parseQuery (toks : List Symbol) : PRes (Symbol × List Symbol) := do
  let (la, ts) := popTok toks
  let (la, ts) ← expectTok la ts 7 "Expected SELECT"
  let (la, ts) := if matchTok la 8 then popTok ts else (la, ts)
  let (la, ts) ← parseSelectList la ts
  parseFromRest la ts

/-- Full pipeline decision on an input string: tokenize, then validate;
a lexical error is an invalid query. -/
def pipelineOk (s : String) : Bool :=
  match tokenize (s.length + 1) ⟨s.toList, 0, 0⟩ with
  | .ok ts => (parseQuery ts).isOk
  | .error _ => false

/-- Full pipeline syntax-error message on an input string, when the scanner
succeeds and the validator fails. -/
def pipelineMsg (s : String) : Option String :=
  match tokenize (s.length + 1) ⟨s.toList, 0, 0⟩ with
  | .error _ => none
  | .ok ts =>
    match parseQuery ts with
    | .ok _ => none
    | .error (m, _) => some m

/-!
## Spec-side definitions

`opLex` and the `spec…` recognizers below transcribe the specification's
wording of the comparison-operator table (§4.1.3, longest match first) and
of the accepted grammar (§4.2) over token-kind sequences; the claims compare
the embedded code against them.
-/

/-- Spec wording: the operator text leading the remaining input, longest
match first, with its mnemonic and length: `<>`→`$ne`, `>=`→`$gte`,
`<=`→`$lte`, then `=`→`$eq`, `>`→`$gt`, `<`→`$lt`. -/
def opLex (s : List Char) : Option (String × Nat) :=
  if startsWithChars ['<', '>'] s then some ("$ne", 2)
  else if startsWithChars ['>', '='] s then some ("$gte", 2)
  else if startsWithChars ['<', '='] s then some ("$lte", 2)
  else if startsWithChars ['='] s then some ("$eq", 1)
  else if startsWithChars ['>'] s then some ("$gt", 1)
  else if startsWithChars ['<'] s then some ("$lt", 1)
  else none

/-!
## Helper lemmas about the scanner branches
-/

theorem swc_destruct {p : Char} {ps s : List Char}
    (h : startsWithChars (p :: ps) s = true) :
    ∃ s', s = p :: s' ∧ startsWithChars ps s' = true := by
  cases s with
  | nil => simp [startsWithChars] at h
  | cons q qs =>
    simp only [startsWithChars, Bool.and_eq_true, beq_iff_eq] at h
    obtain ⟨h1, h2⟩ := h
    exact ⟨qs, by rw [h1], h2⟩

theorem readString_ok_sym {c : Cursor} {t : Symbol} {c' : Cursor}
    (h : readString c = .ok (t, c')) : t.sym = 31 := by
  simp only [readString] at h
  split at h
  · injection h with h'
    injection h' with h1 h2
    rw [← h1]
  · exact Except.noConfusion h

theorem keywordSym_sym_ne6 {up : String} {k : Nat} {p : Option Payload}
    (h : keywordSym up = some (k, p)) : k ≠ 6 := by
  unfold keywordSym at h
  split at h
  all_goals
    first
      | exact Option.noConfusion h
      | (injection h with h2; injection h2 with h3 h4; subst h3; decide)

theorem keywordOrIdent_sym_ne6 (i : List Char) (c1 : Cursor) :
    (keywordOrIdent i c1).sym ≠ 6 := by
  cases hk : keywordSym (i.map Char.toUpper).asString with
  | none => simp [keywordOrIdent, hk]
  | some kp =>
    obtain ⟨k, p⟩ := kp
    simp only [keywordOrIdent, hk]
    exact keywordSym_sym_ne6 hk

theorem identTok_sym_ne6 (c : Cursor) : (identTok c).1.sym ≠ 6 := by
  simp only [identTok]
  split
  · split
    · simp
    · exact keywordOrIdent_sym_ne6 _ _
  · exact keywordOrIdent_sym_ne6 _ _

theorem numberTok_ok_sym {c : Cursor} {t : Symbol} {c' : Cursor}
    (h : numberTok c = .ok (t, c')) : t.sym = 30 := by
  simp only [numberTok] at h
  split at h
  · exact Except.noConfusion h
  · injection h with h'
    injection h' with h1 h2
    rw [← h1]

/-- Soundness half of the operator table: when the unread input starts with
one of the six operator texts (longest first), `tokCore` produces exactly
the corresponding operator token. -/
theorem tokCore_of_opLex {d : Cursor} {m : String} {n : Nat}
    (hop : opLex d.rest = some (m, n)) :
    tokCore d = .ok (opTok m n d) := by
  unfold opLex at hop
  split_ifs at hop with h1 h2 h3 h4 h5 h6 <;>
    (injection hop with hp; injection hp with hm hn; subst hm; subst hn)
  · obtain ⟨s1, hs1, hh⟩ := swc_destruct h1
    obtain ⟨s2, hs2, -⟩ := swc_destruct hh
    subst hs2
    obtain ⟨r, lin, col⟩ := d
    simp only at hs1
    subst hs1
    simp [tokCore, startsWithChars]
  · obtain ⟨s1, hs1, hh⟩ := swc_destruct h2
    obtain ⟨s2, hs2, -⟩ := swc_destruct hh
    subst hs2
    obtain ⟨r, lin, col⟩ := d
    simp only at hs1
    subst hs1
    simp [tokCore, startsWithChars]
  · obtain ⟨s1, hs1, hh⟩ := swc_destruct h3
    obtain ⟨s2, hs2, -⟩ := swc_destruct hh
    subst hs2
    obtain ⟨r, lin, col⟩ := d
    simp only at hs1
    subst hs1
    simp only [startsWithChars, Bool.and_eq_true] at h1
    simp [tokCore, startsWithChars, h1]
  · obtain ⟨s1, hs1, -⟩ := swc_destruct h4
    obtain ⟨r, lin, col⟩ := d
    simp only at hs1
    subst hs1
    simp [tokCore, startsWithChars]
  · obtain ⟨s1, hs1, -⟩ := swc_destruct h5
    obtain ⟨r, lin, col⟩ := d
    simp only at hs1
    subst hs1
    simp only [startsWithChars, Bool.not_eq_true] at h2
    simp only [startsWithChars, beq_self_eq_true, Bool.true_and] at h2
    simp [tokCore, startsWithChars, h2]
  · obtain ⟨s1, hs1, -⟩ := swc_destruct h6
    obtain ⟨r, lin, col⟩ := d
    simp only at hs1
    subst hs1
    simp only [startsWithChars, Bool.not_eq_true] at h1 h3
    simp only [startsWithChars, beq_self_eq_true, Bool.true_and] at h1 h3
    simp [tokCore, startsWithChars, h1, h3]

/-- Completeness half of the operator table: when the unread input starts
with none of the six operator texts, `tokCore` never produces a token of
the comparison-operator kind. -/
theorem tokCore_sym_ne6_of_opLex_none {d : Cursor} {t : Symbol} {c' : Cursor}
    (hop : opLex d.rest = none) (h : tokCore d = .ok (t, c')) : t.sym ≠ 6 := by
  unfold opLex at hop
  split_ifs at hop with g1 g2 g3 g4 g5 g6
  obtain ⟨r0, lin, col⟩ := d
  simp only at g1 g2 g3 g4 g5 g6 h
  rcases r0 with _ | ⟨ch, r⟩
  · simp only [tokCore] at h
    injection h with h'
    injection h' with h1 h2
    rw [← h1]
    simp
  · simp only [tokCore] at h
    split_ifs at h with b1 b2 b3 b4 b5 b6 b7 b8
    · rw [readString_ok_sym h]; decide
    · injection h with h'
      injection h' with h1 h2
      rw [← h1]
      simp [punctTok]
    · injection h with h'
      injection h' with h1 h2
      rw [← h1]
      simp [punctTok]
    · injection h with h'
      injection h' with h1 h2
      rw [← h1]
      simp [punctTok]
    · injection h with h'
      injection h' with h1 h2
      rw [← h1]
      simp [punctTok]
    · injection h with h'
      injection h' with h1 h2
      rw [← h1]
      simp [punctTok]
    · injection h with h'
      have h1 := congrArg Prod.fst h'
      simp only at h1
      rw [← h1]
      exact identTok_sym_ne6 _
    · rw [numberTok_ok_sym h]; decide

/-!
## Claim C1
-/

/-- C1: for every input, `next_token` emits a comparison-operator token
(kind 6) exactly when the remaining input after whitespace begins with one
of the six operator texts, applying longest match first; the payload is the
corresponding mnemonic (`<>`→`$ne`, `>=`→`$gte`, `<=`→`$lte`, `=`→`$eq`,
`>`→`$gt`, `<`→`$lt`, as `opLex` spells out) and exactly the operator text
is consumed.  In particular no other input text ever produces a token of
the comparison-operator kind. -/
theorem C1_comparison_operator_tokens (c : Cursor) (t : Symbol) (c' : Cursor)
    (h : next_token c = .ok (t, c')) :
    t.sym = 6 ↔ ∃ m n, opLex (skipWhitespace c).rest = some (m, n) ∧
      t.value = some (.str m) ∧ c' = advanceN (skipWhitespace c) n := by
  have h' : tokCore (skipWhitespace c) = .ok (t, c') := h
  constructor
  · intro h6
    cases hop : opLex (skipWhitespace c).rest with
    | none => exact absurd h6 (tokCore_sym_ne6_of_opLex_none hop h')
    | some p =>
      obtain ⟨m, n⟩ := p
      have he := tokCore_of_opLex hop
      rw [he] at h'
      injection h' with hh
      have h1 := congrArg Prod.fst hh
      have h2 := congrArg Prod.snd hh
      simp only at h1 h2
      refine ⟨m, n, rfl, ?_, ?_⟩
      · rw [← h1]
        rfl
      · exact h2.symm
  · rintro ⟨m, n, hop, hv, hc⟩
    have he := tokCore_of_opLex hop
    rw [he] at h'
    injection h' with hh
    have h1 := congrArg Prod.fst hh
    simp only at h1
    rw [← h1]
    rfl

/-!
## Cursor arithmetic helpers
-/

/-- Advancing over a newline-free leading block adds its length to the
column and leaves the line unchanged. -/
theorem advanceN_pref {c : Cursor} {l rest2 : List Char}
    (hsplit : c.rest = l ++ rest2) (hnl : '\n' ∉ l) :
    advanceN c l.length = ⟨rest2, c.line, c.column + l.length⟩ := by
  induction l generalizing c with
  | nil =>
    obtain ⟨r0, lin, col⟩ := c
    simp only at hsplit
    simp only [List.nil_append] at hsplit
    subst hsplit
    simp [advanceN]
  | cons ch l' ih =>
    obtain ⟨r0, lin, col⟩ := c
    simp only at hsplit
    subst hsplit
    have hch : ch ≠ '\n' := fun hh => hnl (hh ▸ List.mem_cons_self ch _)
    have hstep : advance ⟨ch :: (l' ++ rest2), lin, col⟩ = ⟨l' ++ rest2, lin, col + 1⟩ := by
      simp [advance, hch]
    have ihh := @ih ⟨l' ++ rest2, lin, col + 1⟩ rfl
      (fun hm => hnl (List.mem_cons_of_mem _ hm))
    show advanceN (advance ⟨ch :: (l' ++ rest2), lin, col⟩) l'.length = _
    rw [hstep, ihh]
    dsimp only
    simp only [List.length_cons]
    congr 1
    omega

/-- Identifier parts are never newlines. -/
theorem identPart_not_newline {l : List Char} :
    '\n' ∉ l.takeWhile isIdentifierPart := by
  intro hm
  have := List.mem_takeWhile_imp hm
  exact absurd this (by decide)

/-- An identifier-starting character is an identifier part. -/
theorem identStart_isPart {ch : Char} (h : isIdentifierStart ch = true) :
    isIdentifierPart ch = true := by
  simp only [isIdentifierStart, Bool.or_eq_true] at h
  rcases h with h | h
  · simp [isIdentifierPart, Char.isAlphanum, h]
  · simp [isIdentifierPart, h]

/-- An identifier-starting character is none of the special characters the
scanner tests first. -/
theorem identStart_not_special {ch : Char} (h : isIdentifierStart ch = true) :
    ch ≠ '"' ∧ ch ≠ '(' ∧ ch ≠ ')' ∧ ch ≠ ',' ∧ ch ≠ '.' ∧ ch ≠ '*' ∧
      ('<' == ch) = false ∧ ('>' == ch) = false ∧ ('=' == ch) = false := by
  refine ⟨?_, ?_, ?_, ?_, ?_, ?_, ?_, ?_, ?_⟩ <;>
    first
      | (intro heq; subst heq; revert h; decide)
      | (rw [beq_eq_false_iff_ne]; intro heq; rw [← heq] at h; revert h; decide)

/-- The identifier branch of `tokCore` fires for every identifier-starting
head character. -/
theorem tokCore_identStart {d : Cursor} {ch : Char} {r : List Char}
    (hd : d.rest = ch :: r) (hs : isIdentifierStart ch = true) :
    tokCore d = .ok (identTok d) := by
  obtain ⟨r0, lin, col⟩ := d
  simp only at hd
  subst hd
  obtain ⟨n1, n2, n3, n4, n5, n6, n7, n8, n9⟩ := identStart_not_special hs
  simp [tokCore, startsWithChars, n1, n2, n3, n4, n5, n6, n7, n8, n9, hs]

/-- Evaluation of the identifier branch in the qualified-field case: the
dot immediately follows the identifier and is itself immediately followed
by an identifier-starting character. -/
theorem identTok_field_eval {d : Cursor} {e : Char} {r2 : List Char}
    (hfield : d.rest.dropWhile isIdentifierPart = '.' :: e :: r2)
    (he : isIdentifierStart e = true) :
    identTok d =
      (⟨28, d.line,
          (d.column : Int) + (d.rest.takeWhile isIdentifierPart).length,
          some (.str ((d.rest.takeWhile isIdentifierPart).asString ++ "." ++
            ((e :: r2).takeWhile isIdentifierPart).asString))⟩,
        ⟨(e :: r2).dropWhile isIdentifierPart, d.line,
          d.column + (d.rest.takeWhile isIdentifierPart).length + 1 +
            ((e :: r2).takeWhile isIdentifierPart).length⟩) := by
  have hsplit : d.rest = d.rest.takeWhile isIdentifierPart ++
      d.rest.dropWhile isIdentifierPart :=
    (List.takeWhile_append_dropWhile ..).symm
  have hc1 : advanceN d (d.rest.takeWhile isIdentifierPart).length =
      ⟨d.rest.dropWhile isIdentifierPart, d.line,
        d.column + (d.rest.takeWhile isIdentifierPart).length⟩ :=
    advanceN_pref hsplit identPart_not_newline
  have hc2 : advance ⟨'.' :: e :: r2, d.line,
      d.column + (d.rest.takeWhile isIdentifierPart).length⟩ =
      ⟨e :: r2, d.line, d.column + (d.rest.takeWhile isIdentifierPart).length + 1⟩ := by
    simp [advance]
  have hsplit2 : (e :: r2) = (e :: r2).takeWhile isIdentifierPart ++
      (e :: r2).dropWhile isIdentifierPart :=
    (List.takeWhile_append_dropWhile ..).symm
  have hc3 : advanceN ⟨e :: r2, d.line,
      d.column + (d.rest.takeWhile isIdentifierPart).length + 1⟩
        ((e :: r2).takeWhile isIdentifierPart).length =
      ⟨(e :: r2).dropWhile isIdentifierPart, d.line,
        d.column + (d.rest.takeWhile isIdentifierPart).length + 1 +
          ((e :: r2).takeWhile isIdentifierPart).length⟩ :=
    advanceN_pref hsplit2 identPart_not_newline
  have harith : ((d.column + (d.rest.takeWhile isIdentifierPart).length + 1 +
      ((e :: r2).takeWhile isIdentifierPart).length : Nat) : Int) -
      ((e :: r2).takeWhile isIdentifierPart).length - 1 =
      (d.column : Int) + (d.rest.takeWhile isIdentifierPart).length := by
    push_cast
    ring
  simp only [identTok, hc1, hfield, hc2, hc3, he, if_true, harith]

/-- Evaluation of the identifier branch when the qualified-field pattern is
absent: keyword lookup or a plain identifier token, reported at the
identifier's first character. -/
theorem identTok_plain_eval {d : Cursor}
    (hnf : ∀ e r2, d.rest.dropWhile isIdentifierPart = '.' :: e :: r2 →
      isIdentifierStart e = false) :
    identTok d =
      (keywordOrIdent (d.rest.takeWhile isIdentifierPart)
        ⟨d.rest.dropWhile isIdentifierPart, d.line,
          d.column + (d.rest.takeWhile isIdentifierPart).length⟩,
        ⟨d.rest.dropWhile isIdentifierPart, d.line,
          d.column + (d.rest.takeWhile isIdentifierPart).length⟩) := by
  have hsplit : d.rest = d.rest.takeWhile isIdentifierPart ++
      d.rest.dropWhile isIdentifierPart :=
    (List.takeWhile_append_dropWhile ..).symm
  have hc1 : advanceN d (d.rest.takeWhile isIdentifierPart).length =
      ⟨d.rest.dropWhile isIdentifierPart, d.line,
        d.column + (d.rest.takeWhile isIdentifierPart).length⟩ :=
    advanceN_pref hsplit identPart_not_newline
  simp only [identTok, hc1]
  rcases hw : d.rest.dropWhile isIdentifierPart with _ | ⟨ch, r1⟩
  · rfl
  · rcases r1 with _ | ⟨e, r2⟩
    · split
      · next heq => simp at heq
      · rfl
    · by_cases hch : ch = '.'
      · subst hch
        have := hnf e r2 hw
        simp [this]
      · split
        · next heq =>
          injection heq with h1 h2
          exact absurd h1 hch
        · rfl

/-- The column reported by keyword lookup / plain identifiers is the
identifier's first character. -/
theorem keywordOrIdent_column (i : List Char) (rest : List Char) (l col : Nat) :
    (keywordOrIdent i ⟨rest, l, col + i.length⟩).column = (col : Int) ∧
      (keywordOrIdent i ⟨rest, l, col + i.length⟩).line = l := by
  unfold keywordOrIdent
  cases keywordSym (i.map Char.toUpper).asString with
  | none =>
    constructor
    · show ((col + i.length : Nat) : Int) - i.length = (col : Int)
      push_cast
      ring
    · rfl
  | some kp =>
    obtain ⟨k, p⟩ := kp
    constructor
    · show ((col + i.length : Nat) : Int) - i.length = (col : Int)
      push_cast
      ring
    · rfl

/-- A digit is none of the characters the scanner's earlier branches test,
nor an identifier start. -/
theorem digit_not_special {v : Char} (h : v.isDigit = true) :
    v ≠ '"' ∧ v ≠ '(' ∧ v ≠ ')' ∧ v ≠ ',' ∧ v ≠ '.' ∧ v ≠ '*' ∧
      ('<' == v) = false ∧ ('>' == v) = false ∧ ('=' == v) = false ∧
      isIdentifierStart v = false := by
  have hne : ∀ ch : Char, ch.isDigit = false → v ≠ ch := by
    intro ch hc heq
    rw [heq] at h
    rw [h] at hc
    exact Bool.noConfusion hc
  have hid : isIdentifierStart v = false := by
    have hd := h
    simp only [Char.isDigit, Bool.and_eq_true, decide_eq_true_eq] at hd
    obtain ⟨h1, h2⟩ := hd
    have g1 : 48 ≤ v.val.toNat := h1
    have g2 : v.val.toNat ≤ 57 := h2
    have halpha : v.isAlpha = false := by
      by_contra hcon
      rw [Bool.not_eq_false] at hcon
      simp only [Char.isAlpha, Bool.or_eq_true, Char.isUpper, Char.isLower,
        Bool.and_eq_true, decide_eq_true_eq] at hcon
      rcases hcon with ⟨a1, a2⟩ | ⟨a1, a2⟩
      · have b1 : 65 ≤ v.val.toNat := a1
        have b2 : v.val.toNat ≤ 90 := a2
        omega
      · have b1 : 97 ≤ v.val.toNat := a1
        have b2 : v.val.toNat ≤ 122 := a2
        omega
    simp [isIdentifierStart, halpha, hne '_' (by decide)]
  exact ⟨hne _ (by decide), hne _ (by decide), hne _ (by decide), hne _ (by decide),
    hne _ (by decide), hne _ (by decide),
    beq_eq_false_iff_ne.mpr (fun heq => hne '<' (by decide) heq.symm),
    beq_eq_false_iff_ne.mpr (fun heq => hne '>' (by decide) heq.symm),
    beq_eq_false_iff_ne.mpr (fun heq => hne '=' (by decide) heq.symm), hid⟩

/-- A `.` head is always classified as the dot punctuation token. -/
theorem tokCore_dot {d : Cursor} {rs : List Char} (hd : d.rest = '.' :: rs) :
    tokCore d = .ok (punctTok 4 d) := by
  obtain ⟨r0, lin, col⟩ := d
  simp only at hd
  subst hd
  simp [tokCore]

/-- A digit head always routes to the numeric branch. -/
theorem tokCore_digit {d : Cursor} {v : Char} {rs : List Char}
    (hd : d.rest = v :: rs) (hv : v.isDigit = true) :
    tokCore d = numberTok d := by
  obtain ⟨r0, lin, col⟩ := d
  simp only at hd
  subst hd
  obtain ⟨n1, n2, n3, n4, n5, n6, n7, n8, n9, n10⟩ := digit_not_special hv
  have hns : isNumberStart (v :: rs) = true := by simp [isNumberStart, hv]
  simp [tokCore, startsWithChars, n1, n2, n3, n4, n5, n6, n7, n8, n9, n10, hns]

/-- A sign head routes to the numeric branch when `isNumberStart` holds and
is otherwise the illegal-character error. -/
theorem tokCore_sign {d : Cursor} {v : Char} {rs : List Char}
    (hd : d.rest = v :: rs) (hv : v = '-' ∨ v = '+') :
    tokCore d = (if isNumberStart (v :: rs) then numberTok d
      else .error (.illegalChar v d.line d.column)) := by
  obtain ⟨r0, lin, col⟩ := d
  simp only at hd
  subst hd
  rcases hv with rfl | rfl <;>
    simp [tokCore, startsWithChars,
      show Char.isDigit '-' = false from by decide,
      show Char.isDigit '+' = false from by decide,
      show isIdentifierStart '-' = false from by decide,
      show isIdentifierStart '+' = false from by decide]

/-- Witness for C1 at the concrete input `<>`. -/
theorem C1_comparison_operator_tokens_witness :
    (Symbol.mk 6 0 0 (some (.str "$ne"))).sym = 6 ∧
    ∃ m n, opLex (skipWhitespace ⟨['<', '>'], 0, 0⟩).rest = some (m, n) ∧
      (Symbol.mk 6 0 0 (some (.str "$ne"))).value = some (.str m) ∧
      (Cursor.mk [] 0 2) = advanceN (skipWhitespace ⟨['<', '>'], 0, 0⟩) n :=
  ⟨rfl,
    (C1_comparison_operator_tokens ⟨['<', '>'], 0, 0⟩
      ⟨6, 0, 0, some (.str "$ne")⟩ ⟨[], 0, 2⟩ (by decide)).mp rfl⟩

/-!
## Claim C5 (corrected)
-/

/-- C5 counterexample: on the input `.5` — a leading `.` immediately
followed by a digit — the scanner emits the dot punctuation token (kind 4),
not a numeric token: the `.` branch of `next_token` precedes the numeric
branch even though `isNumberStart` holds for `.5`, refuting the claim that
a leading `.` directly followed by a digit triggers numeric scanning. -/
theorem C5_counterexample :
    next_token ⟨['.', '5'], 0, 0⟩ = .ok (⟨4, 0, 0, none⟩, ⟨['5'], 0, 1⟩) ∧
      isNumberStart ['.', '5'] = true ∧ (4 : Nat) ≠ 30 :=
  ⟨by decide, by decide, by decide⟩

/-- C5 (amended): a leading `.` never triggers numeric scanning — it is
always classified as the dot punctuation token, even when directly followed
by a digit (the punctuation test precedes the numeric test, making the dot
clause of the number-start test unreachable); a leading `+`/`-` triggers
numeric scanning if and only if the following character is a digit or a
`.`, and when that fails the sign is a fatal illegal-character error. -/
theorem C5_sign_dot_amended (c : Cursor) :
    (∀ rs, (skipWhitespace c).rest = '.' :: rs →
      next_token c = .ok (punctTok 4 (skipWhitespace c))) ∧
    (∀ v rs, (skipWhitespace c).rest = v :: rs → (v = '-' ∨ v = '+') →
      (isNumberStart (v :: rs) = true →
        next_token c = numberTok (skipWhitespace c)) ∧
      (isNumberStart (v :: rs) = false →
        next_token c = .error (.illegalChar v (skipWhitespace c).line
          (skipWhitespace c).column))) := by
  refine ⟨fun rs hd => tokCore_dot hd, fun v rs hd hv => ⟨?_, ?_⟩⟩
  · intro hns
    show tokCore (skipWhitespace c) = _
    rw [tokCore_sign hd hv, hns]
    simp
  · intro hns
    show tokCore (skipWhitespace c) = _
    rw [tokCore_sign hd hv, hns]
    simp

/-- Witness for the amended C5 at `.5` (dot punctuation), `-5` (numeric
scan) and `-x` (illegal character). -/
theorem C5_sign_dot_amended_witness :
    next_token ⟨['.', '5'], 0, 0⟩ = .ok (punctTok 4 (skipWhitespace ⟨['.', '5'], 0, 0⟩)) ∧
    next_token ⟨['-', '5'], 0, 0⟩ = numberTok (skipWhitespace ⟨['-', '5'], 0, 0⟩) ∧
    next_token ⟨['-', 'x'], 0, 0⟩ = .error (.illegalChar '-' 0 0) := by
  refine ⟨(C5_sign_dot_amended _).1 ['5'] (by decide),
    ((C5_sign_dot_amended _).2 '-' ['5'] (by decide) (Or.inl rfl)).1 (by decide), ?_⟩
  exact ((C5_sign_dot_amended ⟨['-', 'x'], 0, 0⟩).2 '-' ['x'] (by decide)
    (Or.inl rfl)).2 (by decide)

/-!
## Claims C7 and C10
-/

/-- C7: whenever an identifier is immediately followed by `.` and an
identifier-starting character with no intervening whitespace, the scanner
emits a single field token (kind 28) whose payload is the full two-segment
dotted text, regardless of whether either segment spells a keyword (the
field check precedes keyword lookup); the right segment is exactly the
maximal identifier run after the dot, so a further dot starts a new token.
Concretely, `a.b` scans as one field token with payload `"a.b"`, while
`a .b` scans as identifier, dot, identifier. -/
theorem C7_qualified_field (c : Cursor) :
    (∀ ch r e r2, (skipWhitespace c).rest = ch :: r →
      isIdentifierStart ch = true →
      (skipWhitespace c).rest.dropWhile isIdentifierPart = '.' :: e :: r2 →
      isIdentifierStart e = true →
      ∃ t c', next_token c = .ok (t, c') ∧ t.sym = 28 ∧
        t.value = some (.str
          (((skipWhitespace c).rest.takeWhile isIdentifierPart).asString ++ "." ++
            ((e :: r2).takeWhile isIdentifierPart).asString)) ∧
        c'.rest = (e :: r2).dropWhile isIdentifierPart) ∧
    (tokenize 5 ⟨['a', '.', 'b'], 0, 0⟩).map (List.map fun t => (t.sym, t.value)) =
      .ok [(28, some (.str "a.b")), (0, none)] ∧
    (tokenize 6 ⟨['a', ' ', '.', 'b'], 0, 0⟩).map (List.map fun t => (t.sym, t.value)) =
      .ok [(29, some (.str "a")), (4, none), (29, some (.str "b")), (0, none)] := by
  refine ⟨?_, by decide, by decide⟩
  intro ch r e r2 hd hs hdw he
  have hev := @identTok_field_eval (skipWhitespace c) _ _ hdw he
  refine ⟨(identTok (skipWhitespace c)).1, (identTok (skipWhitespace c)).2, ?_, ?_, ?_, ?_⟩
  · show tokCore (skipWhitespace c) = _
    exact tokCore_identStart hd hs
  · rw [hev]
  · rw [hev]
  · rw [hev]

/-- Witness for C7 at the concrete input `a.b`. -/
theorem C7_qualified_field_witness :
    ∃ t c', next_token ⟨['a', '.', 'b'], 0, 0⟩ = .ok (t, c') ∧ t.sym = 28 ∧
      t.value = some (.str
        (((skipWhitespace ⟨['a', '.', 'b'], 0, 0⟩).rest.takeWhile isIdentifierPart).asString
          ++ "." ++ ((['b'] : List Char).takeWhile isIdentifierPart).asString)) ∧
      c'.rest = (['b'] : List Char).dropWhile isIdentifierPart :=
  (C7_qualified_field ⟨['a', '.', 'b'], 0, 0⟩).1 'a' ['.', 'b'] 'b' []
    (by decide) (by decide) (by decide) (by decide)

/-- C10: a qualified-field token reports the column of the `.` separator —
the start column plus the left segment's length, equivalently the post-scan
column minus the right segment's length minus one — which is never the
column of the field's first character; keyword and plain identifier tokens
report the column of their first character. -/
theorem C10_field_column (c : Cursor) (ch : Char) (r : List Char)
    (hd : (skipWhitespace c).rest = ch :: r)
    (hs : isIdentifierStart ch = true) :
    (∀ e r2, (skipWhitespace c).rest.dropWhile isIdentifierPart = '.' :: e :: r2 →
      isIdentifierStart e = true →
      ∃ t c', next_token c = .ok (t, c') ∧ t.sym = 28 ∧
        t.line = (skipWhitespace c).line ∧
        t.column = ((skipWhitespace c).column : Int) +
          ((skipWhitespace c).rest.takeWhile isIdentifierPart).length ∧
        t.column ≠ ((skipWhitespace c).column : Int)) ∧
    ((∀ e r2, (skipWhitespace c).rest.dropWhile isIdentifierPart = '.' :: e :: r2 →
        isIdentifierStart e = false) →
      ∃ t c', next_token c = .ok (t, c') ∧
        t.line = (skipWhitespace c).line ∧
        t.column = ((skipWhitespace c).column : Int)) := by
  have hlen : 0 < ((skipWhitespace c).rest.takeWhile isIdentifierPart).length := by
    rw [hd]
    simp [List.takeWhile_cons, identStart_isPart hs]
  constructor
  · intro e r2 hdw he
    have hev := @identTok_field_eval (skipWhitespace c) _ _ hdw he
    refine ⟨(identTok (skipWhitespace c)).1, (identTok (skipWhitespace c)).2, ?_, ?_, ?_, ?_, ?_⟩
    · show tokCore (skipWhitespace c) = _
      exact tokCore_identStart hd hs
    · rw [hev]
    · rw [hev]
    · rw [hev]
    · rw [hev]
      intro habs
      simp only at habs
      omega
  · intro hnf
    have hev := @identTok_plain_eval (skipWhitespace c) hnf
    refine ⟨(identTok (skipWhitespace c)).1, (identTok (skipWhitespace c)).2, ?_, ?_, ?_⟩
    · show tokCore (skipWhitespace c) = _
      exact tokCore_identStart hd hs
    · rw [hev]
      exact (keywordOrIdent_column _ _ _ _).2
    · rw [hev]
      exact (keywordOrIdent_column _ _ _ _).1

/-- Witness for C10: `a.b` reports the field token at the dot's column 1,
not at column 0; `ab` reports the identifier at column 0. -/
theorem C10_field_column_witness :
    (∃ t c', next_token ⟨['a', '.', 'b'], 0, 0⟩ = .ok (t, c') ∧ t.sym = 28 ∧
      t.line = (skipWhitespace ⟨['a', '.', 'b'], 0, 0⟩).line ∧
      t.column = ((skipWhitespace ⟨['a', '.', 'b'], 0, 0⟩).column : Int) +
        ((skipWhitespace ⟨['a', '.', 'b'], 0, 0⟩).rest.takeWhile isIdentifierPart).length ∧
      t.column ≠ ((skipWhitespace ⟨['a', '.', 'b'], 0, 0⟩).column : Int)) ∧
    (∃ t c', next_token ⟨['a', 'b'], 0, 0⟩ = .ok (t, c') ∧
      t.line = (skipWhitespace ⟨['a', 'b'], 0, 0⟩).line ∧
      t.column = ((skipWhitespace ⟨['a', 'b'], 0, 0⟩).column : Int)) :=
  ⟨(C10_field_column ⟨['a', '.', 'b'], 0, 0⟩ 'a' ['.', 'b'] (by decide) (by decide)).1
      'b' [] (by decide) (by decide),
    (C10_field_column ⟨['a', 'b'], 0, 0⟩ 'a' ['b'] (by decide) (by decide)).2
      (by
        intro e r2 h
        rw [show (skipWhitespace ⟨['a', 'b'], 0, 0⟩).rest.dropWhile isIdentifierPart
          = [] from by decide] at h
        exact List.noConfusion h)⟩

/-!
## Claim C6
-/

/-- `advance` on a known non-newline head. -/
theorem advance_eval {d : Cursor} {ch : Char} {rs : List Char}
    (hd : d.rest = ch :: rs) (h : ch ≠ '\n') :
    advance d = ⟨rs, d.line, d.column + 1⟩ := by
  obtain ⟨r0, lin, col⟩ := d
  simp only at hd
  subst hd
  simp [advance, h]

/-- A `"` head always routes to the string branch. -/
theorem tokCore_quote {d : Cursor} {rs : List Char} (hd : d.rest = '"' :: rs) :
    tokCore d = readString d := by
  obtain ⟨r0, lin, col⟩ := d
  simp only at hd
  subst hd
  simp [tokCore]

/-- Every unterminated-string error is raised from the string branch and
carries the opening quote's position. -/
theorem tokCore_unterminated {d : Cursor} {l col : Nat}
    (h : tokCore d = .error (.unterminated l col)) :
    d.rest.head? = some '"' ∧ l = d.line ∧ col = d.column := by
  obtain ⟨r0, lin, colc⟩ := d
  rcases r0 with _ | ⟨ch, r⟩
  · simp only [tokCore] at h
    exact Except.noConfusion h
  · simp only [tokCore] at h
    by_cases h1 : ch = '"'
    · rw [if_pos h1] at h
      subst h1
      simp only [readString] at h
      split at h
      · exact Except.noConfusion h
      · injection h with h'
        injection h' with ha hb
        exact ⟨rfl, ha.symm, hb.symm⟩
    rw [if_neg h1] at h
    by_cases h2 : ch = '('
    · rw [if_pos h2] at h
      exact Except.noConfusion h
    rw [if_neg h2] at h
    by_cases h3 : ch = ')'
    · rw [if_pos h3] at h
      exact Except.noConfusion h
    rw [if_neg h3] at h
    by_cases h4 : ch = ','
    · rw [if_pos h4] at h
      exact Except.noConfusion h
    rw [if_neg h4] at h
    by_cases h5 : ch = '.'
    · rw [if_pos h5] at h
      exact Except.noConfusion h
    rw [if_neg h5] at h
    by_cases h6 : ch = '*'
    · rw [if_pos h6] at h
      exact Except.noConfusion h
    rw [if_neg h6] at h
    by_cases h7 : startsWithChars ['<', '>'] (ch :: r) = true
    · rw [if_pos h7] at h
      exact Except.noConfusion h
    rw [if_neg h7] at h
    by_cases h8 : startsWithChars ['>', '='] (ch :: r) = true
    · rw [if_pos h8] at h
      exact Except.noConfusion h
    rw [if_neg h8] at h
    by_cases h9 : startsWithChars ['<', '='] (ch :: r) = true
    · rw [if_pos h9] at h
      exact Except.noConfusion h
    rw [if_neg h9] at h
    by_cases h10 : startsWithChars ['='] (ch :: r) = true
    · rw [if_pos h10] at h
      exact Except.noConfusion h
    rw [if_neg h10] at h
    by_cases h11 : startsWithChars ['>'] (ch :: r) = true
    · rw [if_pos h11] at h
      exact Except.noConfusion h
    rw [if_neg h11] at h
    by_cases h12 : startsWithChars ['<'] (ch :: r) = true
    · rw [if_pos h12] at h
      exact Except.noConfusion h
    rw [if_neg h12] at h
    by_cases h13 : isIdentifierStart ch = true
    · rw [if_pos h13] at h
      exact Except.noConfusion h
    rw [if_neg h13] at h
    by_cases h14 : isNumberStart (ch :: r) = true
    · rw [if_pos h14] at h
      simp only [numberTok] at h
      split at h
      · injection h with h'
        exact LexError.noConfusion h'
      · exact Except.noConfusion h
    rw [if_neg h14] at h
    injection h with h'
    exact LexError.noConfusion h'

/-- C6: whenever a string literal opened by `"` runs to end of input with
no closing unescaped quote — including a trailing lone backslash — the
scanner fails with the unterminated-string error reported at the opening
quote's line and column (and every unterminated-string error arises that
way); the five recognized escapes are translated and any other escaped
character is copied literally, never an error.  The spec's example
`SELECT * FROM users WHERE name = "abc` fails at line 0, column 33. -/
theorem C6_unterminated_string (c : Cursor) :
    (∀ l col, next_token c = .error (.unterminated l col) →
      (skipWhitespace c).rest.head? = some '"' ∧
      l = (skipWhitespace c).line ∧ col = (skipWhitespace c).column) ∧
    (∀ rs, (skipWhitespace c).rest = '"' :: rs →
      readStringLoop rs (skipWhitespace c).line ((skipWhitespace c).column + 1) "" = none →
      next_token c = .error (.unterminated (skipWhitespace c).line
        (skipWhitespace c).column)) ∧
    (∀ l col acc, readStringLoop [] l col acc = none ∧
      readStringLoop ['\\'] l col acc = none) ∧
    (∀ e rs l col acc, readStringLoop ('\\' :: e :: rs) l col acc =
      if e = '\n' then readStringLoop rs (l + 1) 0 (acc.push (escapeChar e))
      else readStringLoop rs l (col + 2) (acc.push (escapeChar e))) ∧
    (escapeChar 't' = '\t' ∧ escapeChar 'n' = '\n' ∧ escapeChar 'r' = '\r' ∧
      escapeChar '"' = '"' ∧ escapeChar '\\' = '\\' ∧
      ∀ e, e ≠ 't' → e ≠ 'n' → e ≠ 'r' → e ≠ '"' → e ≠ '\\' → escapeChar e = e) ∧
    tokenize 40 ⟨("SELECT * FROM users WHERE name = \"abc").toList, 0, 0⟩ =
      .error (.unterminated 0 33) := by
  refine ⟨fun l col h => tokCore_unterminated h, ?_, ?_, ?_, ?_, by decide⟩
  · intro rs hd hnone
    have hadv : advance (skipWhitespace c) =
        ⟨rs, (skipWhitespace c).line, (skipWhitespace c).column + 1⟩ :=
      advance_eval hd (by decide)
    show tokCore (skipWhitespace c) = _
    rw [tokCore_quote hd]
    simp only [readString, hadv, hnone]
  · intro l col acc
    exact ⟨rfl, by simp [readStringLoop]⟩
  · intro e rs l col acc
    simp [readStringLoop]
  · refine ⟨rfl, rfl, rfl, rfl, rfl, ?_⟩
    intro e h1 h2 h3 h4 h5
    simp [escapeChar, h1, h2, h3, h4, h5]

/-- Witness for C6 at the unterminated input `"ab`. -/
theorem C6_unterminated_string_witness :
    ((skipWhitespace ⟨['"', 'a', 'b'], 0, 0⟩).rest.head? = some '"' ∧
      (0 : Nat) = (skipWhitespace ⟨['"', 'a', 'b'], 0, 0⟩).line ∧
      (0 : Nat) = (skipWhitespace ⟨['"', 'a', 'b'], 0, 0⟩).column) ∧
    next_token ⟨['"', 'a', 'b'], 0, 0⟩ =
      .error (.unterminated (skipWhitespace ⟨['"', 'a', 'b'], 0, 0⟩).line
        (skipWhitespace ⟨['"', 'a', 'b'], 0, 0⟩).column) :=
  ⟨(C6_unterminated_string ⟨['"', 'a', 'b'], 0, 0⟩).1 0 0 (by decide),
    (C6_unterminated_string ⟨['"', 'a', 'b'], 0, 0⟩).2.1 ['a', 'b']
      (by decide) (by decide)⟩

/-!
## Claim C4 (corrected)
-/

/-- C4 counterexample: on the input `-.x5` the number-start test fires
(`-` followed by `.`), the numeric grammar does not match the start of the
remaining input, yet `next_token` does not fail: `Matcher.find()` locates
the match `5` later in the input and the scanner emits a number token with
payload text `5` while consuming only the character `-`. -/
theorem C4_counterexample :
    isNumberStart ['-', '.', 'x', '5'] = true ∧
    numMatchHere ['-', '.', 'x', '5'] = none ∧
    next_token ⟨['-', '.', 'x', '5'], 0, 0⟩ =
      .ok (⟨30, 0, 0, some (.num "5")⟩, ⟨['.', 'x', '5'], 0, 1⟩) ∧
    ("5" : String) ≠ "-" :=
  ⟨by decide, by decide, by decide, by decide⟩

/-- C4 (amended): whenever the scanner begins numeric scanning (digit head,
or sign head passing the number-start test; a `.` head never reaches this
branch), it searches the whole remaining input for the numeric grammar:
if the grammar matches nowhere, `next_token` fails with the fatal
invalid-numeric-literal error at the current position; otherwise it emits a
number token whose payload is the leftmost match's text while consuming
that many characters from the current position — equal to the matched text
exactly when the match is anchored at the start (as for `-3.5e2`, which
scans to the value −350), but possibly different otherwise. -/
theorem C4_number_scan_amended (c : Cursor) :
    (∀ v rs, (skipWhitespace c).rest = v :: rs → isNumberStart (v :: rs) = true →
      v ≠ '.' → next_token c = numberTok (skipWhitespace c)) ∧
    (∀ d : Cursor,
      (findNumFrom d.rest = none →
        numberTok d = .error (.invalidNumber d.line d.column)) ∧
      (∀ m, findNumFrom d.rest = some m →
        numberTok d = .ok (⟨30, (advanceN d m.length).line,
          ((advanceN d m.length).column : Int) - m.length, some (.num m.asString)⟩,
          advanceN d m.length))) ∧
    (∀ s m, numMatchHere s = some m → findNumFrom s = some m) ∧
    (tokenize 7 ⟨"-3.5e2".toList, 0, 0⟩).map (List.map fun t => (t.sym, t.value)) =
      .ok [(30, some (.num "-3.5e2")), (0, none)] ∧
    numValue "-3.5e2" = -350 := by
  have hval : numValue "-3.5e2" = -350 := by
    have h1 : List.takeWhile Char.isDigit ['3', '.', '5', 'e', '2'] = ['3'] := by decide
    have h2 : List.dropWhile Char.isDigit ['3', '.', '5', 'e', '2'] =
        '.' :: ['5', 'e', '2'] := by decide
    have h3 : List.takeWhile Char.isDigit ['5', 'e', '2'] = ['5'] := by decide
    have h4 : List.dropWhile Char.isDigit ['5', 'e', '2'] = ['e', '2'] := by decide
    have h5 : List.takeWhile Char.isDigit ['2'] = ['2'] := by decide
    have h6 : digitsVal ['3'] = 3 := by decide
    have h7 : digitsVal ['5'] = 5 := by decide
    have h8 : digitsVal ['2'] = 2 := by decide
    show -(numValueCore ['3', '.', '5', 'e', '2']) = -350
    simp only [numValueCore, h1, h2, h3, h4, h5, h6, h7, h8]
    rw [if_neg (show ¬('2' = '-') from by decide), if_neg (show ¬('2' = '+') from by decide)]
    norm_num
  refine ⟨?_, ?_, ?_, by decide, hval⟩
  · intro v rs hd hns hdot
    by_cases hdig : v.isDigit
    · exact tokCore_digit hd hdig
    · have hdig2 : v.isDigit = false := by simpa using hdig
      have hsign : v = '-' ∨ v = '+' := by
        by_cases hm : v = '-'
        · exact Or.inl hm
        by_cases hp : v = '+'
        · exact Or.inr hp
        exfalso
        simp [isNumberStart, hdig2, hm, hp, hdot] at hns
      show tokCore (skipWhitespace c) = _
      rw [tokCore_sign hd hsign, hns]
      simp
  · intro d
    constructor
    · intro hnone
      simp only [numberTok, hnone]
    · intro m hsome
      simp only [numberTok, hsome]
  · intro s m h
    cases s with
    | nil => exact Option.noConfusion h
    | cons a rest => simp [findNumFrom, h]

/-- Witness for the amended C4: `-3.5e2` engages numeric scanning; a search
failure is the invalid-literal error; an anchored match is found. -/
theorem C4_number_scan_amended_witness :
    next_token ⟨"-3.5e2".toList, 0, 0⟩ = numberTok (skipWhitespace ⟨"-3.5e2".toList, 0, 0⟩) ∧
    numberTok ⟨['x'], 0, 0⟩ = .error (.invalidNumber 0 0) ∧
    findNumFrom ['5'] = some ['5'] :=
  ⟨(C4_number_scan_amended ⟨"-3.5e2".toList, 0, 0⟩).1 '-' "3.5e2".toList
      (by decide) (by decide) (by decide),
    ((C4_number_scan_amended ⟨[], 0, 0⟩).2.1 ⟨['x'], 0, 0⟩).1 (by decide),
    (C4_number_scan_amended ⟨[], 0, 0⟩).2.2.1 ['5'] ['5'] (by decide)⟩

/-!
## The accepted grammar, transcribed from the specification (§4.2)

`specAccepts` and its components below are written from the specification's
wording over token-kind sequences: SELECT, optional DISTINCT, a select list
(`*` or one-or-more comma-separated identifier/field names), FROM, exactly
one table name, an optional WHERE clause of condition groups (operand,
comparison operator, operand) chained by AND/OR/XOR, then the end-of-input
kind.  They are compared against the embedded validator.
-/

/-- Select-list operand kinds: identifier or qualified field. -/
def isSelOperandK (k : Nat) : Bool := k == 29 || k == 28

/-- Condition operand kinds: identifier, field, string, number, boolean,
NULL. -/
def isOperandK (k : Nat) : Bool :=
  k == 29 || k == 28 || k == 31 || k == 30 || k == 27 || k == 20

/-- Connector kinds: AND, OR, XOR, all equally weighted. -/
def isConnK (k : Nat) : Bool := k == 14 || k == 15 || k == 16

/-- One condition group: operand, comparison operator (kind 6), operand. -/
def specGroup : List Nat → Option (List Nat)
  | [] => none
  | a :: r1 =>
    if isOperandK a then
      match r1 with
      | [] => none
      | op :: r2 =>
        if op == 6 then
          match r2 with
          | [] => none
          | b :: r3 => if isOperandK b then some r3 else none
        else none
    else none

theorem specGroup_some_length {r r2 : List Nat} (h : specGroup r = some r2) :
    r2.length ≤ r.length := by
  cases r with
  | nil => exact Option.noConfusion h
  | cons a r1 =>
    simp only [specGroup] at h
    split at h
    · cases r1 with
      | nil => exact Option.noConfusion h
      | cons op r2' =>
        simp only at h
        split at h
        · cases r2' with
          | nil => exact Option.noConfusion h
          | cons b r3 =>
            simp only at h
            split at h
            · injection h with h'
              subst h'
              simp
              omega
            · exact Option.noConfusion h
        · exact Option.noConfusion h
    · exact Option.noConfusion h

/-- The comma-separated tail of the select list. -/
def specSelTail : List Nat → Option (List Nat)
  | [] => some []
  | k :: r =>
    if k == 3 then
      match r with
      | [] => none
      | k2 :: r2 => if isSelOperandK k2 then specSelTail r2 else none
    else some (k :: r)

/-- Condition groups chained by connectors. -/
def specCondTail : List Nat → Option (List Nat)
  | [] => some []
  | k :: r =>
    if isConnK k then
      match h : specGroup r with
      | some r2 => specCondTail r2
      | none => none
    else some (k :: r)
  termination_by l => l.length
  decreasing_by
    exact Nat.lt_succ_of_le (specGroup_some_length h)

/-- The select list: a lone `*`, or one-or-more comma-separated names. -/
def specSelList : List Nat → Option (List Nat)
  | [] => none
  | k :: r =>
    if k == 5 then some r
    else if isSelOperandK k then specSelTail r else none

/-- The optional WHERE clause followed by the end-of-input kind. -/
def specWhereEnd : List Nat → Bool
  | [] => false
  | k :: r =>
    if k == 13 then
      match specGroup r with
      | some r2 =>
        match specCondTail r2 with
        | some (k2 :: _) => k2 == 0
        | _ => false
      | none => false
    else k == 0

/-- FROM, exactly one table name, then the optional WHERE and the end. -/
def specFrom : List Nat → Bool
  | [] => false
  | k :: r =>
    if k == 9 then
      match r with
      | [] => false
      | k2 :: r2 => if isSelOperandK k2 then specWhereEnd r2 else false
    else false

/-- The full accepted token-kind language of §4.2. -/
def specAccepts (ks : List Nat) : Bool :=
  match ks with
  | [] => false
  | k :: r =>
    if k == 7 then
      match (match r with
             | [] => r
             | k3 :: rr => if k3 == 8 then rr else k3 :: rr) with
      | [] => false
      | k2 :: r2 =>
        if k2 == 5 then specFrom r2
        else if isSelOperandK k2 then
          match specSelTail r2 with
          | some r3 => specFrom r3
          | none => false
        else false
    else false

/-- Kind-level view of a parse result: the lookahead's kind consed onto the
remaining kinds on success, `none` on error. -/
def resKinds : PRes (Symbol × List Symbol) → Option (List Nat)
  | .ok (la, ts) => some (la.sym :: ts.map Symbol.sym)
  | .error _ => none

theorem selOperandK_ne_zero {k : Nat} (h : isSelOperandK k = true) : k ≠ 0 := by
  simp only [isSelOperandK, Bool.or_eq_true, beq_iff_eq] at h
  rcases h with rfl | rfl <;> decide

theorem operandK_ne_zero {k : Nat} (h : isOperandK k = true) : k ≠ 0 := by
  simp only [isOperandK, Bool.or_eq_true, beq_iff_eq] at h
  rcases h with ((((rfl | rfl) | rfl) | rfl) | rfl) | rfl <;> decide

/-- The select-list comma loop agrees with the spec recognizer on streams
that still contain the end marker. -/
theorem selLoop_equiv : ∀ (n : Nat) (la : Symbol) (ts : List Symbol), ts.length ≤ n →
    0 ∈ la.sym :: ts.map Symbol.sym →
    specSelTail (la.sym :: ts.map Symbol.sym) = resKinds (parseSelectLoop la ts) := by
  intro n
  induction n with
  | zero =>
    intro la ts hlen h0
    have hts : ts = [] := List.eq_nil_of_length_eq_zero (Nat.le_zero.mp hlen)
    subst hts
    simp only [List.map_nil, List.mem_cons, List.not_mem_nil, or_false] at h0
    have h3 : ¬ la.sym = 3 := by omega
    have hb : (la.sym == 3) = false := by simp [h3]
    simp [specSelTail, parseSelectLoop, matchTok, hb, resKinds]
  | succ n ih =>
    intro la ts hlen h0
    by_cases h3 : la.sym = 3
    · have h0' : 0 ∈ ts.map Symbol.sym := by
        rcases List.mem_cons.mp h0 with h | h
        · omega
        · exact h
      have hb : (la.sym == 3) = true := by simp [h3]
      cases ts with
      | nil => simp at h0'
      | cons t ts' =>
        by_cases hop : isSelOperandK t.sym = true
        · have hpi : parseIdentifierTok t ts' "Expected field name after comma" =
              .ok (popTok ts') := by
            simp only [parseIdentifierTok]
            rw [if_pos (show (matchTok t 29 || matchTok t 28) = true from hop)]
          have h0'' : 0 ∈ ts'.map Symbol.sym := by
            simp only [List.map_cons, List.mem_cons] at h0'
            rcases h0' with h | h
            · exact absurd h.symm (selOperandK_ne_zero hop)
            · exact h
          cases ts' with
          | nil => simp at h0''
          | cons u us =>
            have hrec := ih u us (by simp at hlen ⊢; omega) (by simpa using h0'')
            have hspec : specSelTail (la.sym :: ((t :: u :: us).map Symbol.sym)) =
                specSelTail (u.sym :: us.map Symbol.sym) := by
              simp [specSelTail, h3, hop]
            have hpars : parseSelectLoop la (t :: u :: us) = parseSelectLoop u us := by
              rw [parseSelectLoop]
              rw [if_pos (show matchTok la 3 = true from hb)]
              split
              · next e heq =>
                rw [hpi] at heq
                exact Except.noConfusion heq
              · next la2 ts2 heq =>
                rw [hpi] at heq
                injection heq with h'
                simp only [popTok] at h'
                injection h' with e1 e2
                rw [← e1, ← e2]
            rw [hspec, hpars]
            exact hrec
        · have hspec : specSelTail (la.sym :: ((t :: ts').map Symbol.sym)) = none := by
            simp [specSelTail, h3, hop]
          have hpars : resKinds (parseSelectLoop la (t :: ts')) = none := by
            rw [parseSelectLoop]
            rw [if_pos (show matchTok la 3 = true from hb)]
            split
            · rfl
            · next la2 ts2 heq =>
              simp only [parseIdentifierTok] at heq
              rw [if_neg (show ¬ (matchTok t 29 || matchTok t 28) = true from hop)] at heq
              exact Except.noConfusion heq
          rw [hspec, hpars]
    · have hb : (la.sym == 3) = false := by simp [h3]
      have hpars : parseSelectLoop la ts = .ok (la, ts) := by
        rw [parseSelectLoop.eq_def]
        rw [if_neg (show ¬ matchTok la 3 = true from by simp [matchTok, hb])]
      rw [hpars]
      rw [specSelTail.eq_def]
      simp [hb, resKinds]

/-!
## Evaluation lemmas for the parse primitives
-/

theorem expectTok_eval_ok {la : Symbol} {ts : List Symbol} {k : Nat} {msg : String}
    (h : (la.sym == k) = true) : expectTok la ts k msg = .ok (popTok ts) := by
  simp only [expectTok, matchTok]
  rw [if_pos h]

theorem expectTok_eval_err {la : Symbol} {ts : List Symbol} {k : Nat} {msg : String}
    (h : (la.sym == k) = false) :
    expectTok la ts k msg = .error (msg ++ " but found: " ++ tokenName la, ts) := by
  simp only [expectTok, matchTok]
  rw [if_neg (by simp [h])]

theorem parseIdentifierTok_eval_ok {la : Symbol} {ts : List Symbol} {msg : String}
    (h : isSelOperandK la.sym = true) :
    parseIdentifierTok la ts msg = .ok (popTok ts) := by
  simp only [isSelOperandK] at h
  simp only [parseIdentifierTok, matchTok]
  rw [if_pos h]

theorem parseIdentifierTok_eval_err {la : Symbol} {ts : List Symbol} {msg : String}
    (h : isSelOperandK la.sym = false) :
    parseIdentifierTok la ts msg = .error (msg ++ " but found: " ++ tokenName la, ts) := by
  simp only [isSelOperandK] at h
  simp only [parseIdentifierTok, matchTok]
  rw [if_neg (by simp [h])]

theorem parseOperand_eval_ok {la : Symbol} {ts : List Symbol}
    (h : isOperandK la.sym = true) : parseOperand la ts = .ok (popTok ts) := by
  simp only [isOperandK] at h
  simp only [parseOperand, matchTok]
  by_cases h1 : (la.sym == 29 || la.sym == 28) = true
  · rw [if_pos h1]
  · rw [if_neg h1, if_pos ?side]
    case side =>
      simp only [Bool.or_eq_true] at h h1 ⊢
      tauto

theorem parseOperand_eval_err {la : Symbol} {ts : List Symbol}
    (h : isOperandK la.sym = false) :
    parseOperand la ts = .error ("Expected operand but found: " ++ tokenName la, ts) := by
  simp only [isOperandK] at h
  simp only [parseOperand, matchTok]
  rw [if_neg ?s1, if_neg ?s2]
  case s1 =>
    simp only [Bool.or_eq_false_iff] at h
    simp [h.1.1.1.1.1, h.1.1.1.1.2]
  case s2 =>
    simp only [Bool.or_eq_false_iff] at h
    simp [h.1.1.1.2, h.1.1.2, h.1.2, h.2]

/-- A successful condition group leaves the end marker in the remainder. -/
theorem specGroup_zero {r r3 : List Nat} (h : specGroup r = some r3) (h0 : 0 ∈ r) :
    0 ∈ r3 := by
  cases r with
  | nil => exact Option.noConfusion h
  | cons a r1 =>
    simp only [specGroup] at h
    split at h
    · next hA =>
      cases r1 with
      | nil => exact Option.noConfusion h
      | cons op r2 =>
        simp only at h
        split at h
        · next hOp =>
          cases r2 with
          | nil => exact Option.noConfusion h
          | cons b r4 =>
            simp only at h
            split at h
            · next hB =>
              injection h with h'
              subst h'
              simp only [List.mem_cons] at h0
              rcases h0 with h | h | h | h
              · exact absurd h.symm (operandK_ne_zero hA)
              · rw [beq_iff_eq] at hOp
                omega
              · exact absurd h.symm (operandK_ne_zero hB)
              · exact h
            · exact Option.noConfusion h
        · exact Option.noConfusion h
    · exact Option.noConfusion h

/-- One condition group agrees with the spec recognizer on streams that
still contain the end marker. -/
theorem condGroup_equiv (la : Symbol) (ts : List Symbol)
    (h0 : 0 ∈ la.sym :: ts.map Symbol.sym) :
    specGroup (la.sym :: ts.map Symbol.sym) = resKinds (condGroup la ts) := by
  by_cases hA : isOperandK la.sym = true
  · have h0' : 0 ∈ ts.map Symbol.sym := by
      rcases List.mem_cons.mp h0 with h | h
      · exact absurd h.symm (operandK_ne_zero hA)
      · exact h
    cases ts with
    | nil => simp at h0'
    | cons t ts1 =>
      have hpo := @parseOperand_eval_ok la (t :: ts1) hA
      by_cases hOp : (t.sym == 6) = true
      · have h0'' : 0 ∈ ts1.map Symbol.sym := by
          simp only [List.map_cons, List.mem_cons] at h0'
          rcases h0' with h | h
          · rw [beq_iff_eq] at hOp
            omega
          · exact h
        cases ts1 with
        | nil => simp at h0''
        | cons u us =>
          have hex := @expectTok_eval_ok t (u :: us) 6
            "Expected comparison operator" hOp
          by_cases hB : isOperandK u.sym = true
          · have h0''' : 0 ∈ us.map Symbol.sym := by
              simp only [List.map_cons, List.mem_cons] at h0''
              rcases h0'' with h | h
              · exact absurd h.symm (operandK_ne_zero hB)
              · exact h
            cases us with
            | nil => simp at h0'''
            | cons w ws =>
              have hpo2 := @parseOperand_eval_ok u (w :: ws) hB
              have hspec : specGroup (la.sym :: ((t :: u :: w :: ws).map Symbol.sym)) =
                  some (w.sym :: ws.map Symbol.sym) := by
                simp [specGroup, hA, hOp, hB]
              have hpars : condGroup la (t :: u :: w :: ws) = .ok (w, ws) := by
                simp only [condGroup, bind, Except.bind, hpo, popTok, hex, hpo2]
              rw [hspec, hpars]
              rfl
          · have hB' : isOperandK u.sym = false := by simpa using hB
            have hpe := @parseOperand_eval_err u us hB'
            have hspec : specGroup (la.sym :: ((t :: u :: us).map Symbol.sym)) = none := by
              simp [specGroup, hA, hOp, hB']
            have hpars : condGroup la (t :: u :: us) =
                .error ("Expected operand but found: " ++ tokenName u, us) := by
              simp only [condGroup, bind, Except.bind, hpo, popTok, hex, hpe]
            rw [hspec, hpars]
            rfl
      · have hOp' : (t.sym == 6) = false := by simpa using hOp
        have hee := @expectTok_eval_err t ts1 6
          "Expected comparison operator" hOp'
        have hspec : specGroup (la.sym :: ((t :: ts1).map Symbol.sym)) = none := by
          simp [specGroup, hA, hOp']
        have hpars : condGroup la (t :: ts1) =
            .error ("Expected comparison operator" ++ " but found: " ++ tokenName t, ts1) := by
          simp only [condGroup, bind, Except.bind, hpo, popTok, hee]
        rw [hspec, hpars]
        rfl
  · have hA' : isOperandK la.sym = false := by simpa using hA
    have hpe := @parseOperand_eval_err la ts hA'
    have hspec : specGroup (la.sym :: ts.map Symbol.sym) = none := by
      simp [specGroup, hA']
    have hpars : condGroup la ts =
        .error ("Expected operand but found: " ++ tokenName la, ts) := by
      simp only [condGroup, bind, Except.bind, hpe]
    rw [hspec, hpars]
    rfl

theorem connK_ne_zero {k : Nat} (h : isConnK k = true) : k ≠ 0 := by
  simp only [isConnK, Bool.or_eq_true, beq_iff_eq] at h
  rcases h with (rfl | rfl) | rfl <;> decide

/-- One-step unfolding of `specCondTail`. -/
theorem specCondTail_eq (l : List Nat) :
    specCondTail l =
      (match l with
       | [] => some []
       | k :: r =>
         if isConnK k then
           match h : specGroup r with
           | some r2 => specCondTail r2
           | none => none
         else some (k :: r)) := by
  rw [specCondTail.eq_def]

/-- One-step unfolding of `parseCondLoop`. -/
theorem parseCondLoop_eq (la : Symbol) (toks : List Symbol) :
    parseCondLoop la toks =
      (if matchTok la 14 || matchTok la 15 || matchTok la 16 then
        match toks with
        | [] => condGroup eofDefault []
        | t :: ts =>
          match h : condGroup t ts with
          | .error e => .error e
          | .ok (la2, ts2) => parseCondLoop la2 ts2
      else .ok (la, toks)) := by
  rw [parseCondLoop.eq_def]

/-- `specCondTail` on a cons cell. -/
theorem specCondTail_cons (k : Nat) (r : List Nat) :
    specCondTail (k :: r) =
      (if isConnK k then
        match h : specGroup r with
        | some r2 => specCondTail r2
        | none => none
      else some (k :: r)) := by
  rw [specCondTail.eq_def]

/-- `parseCondLoop` on a cons when the lookahead is a connector. -/
theorem parseCondLoop_cons (la t : Symbol) (ts : List Symbol)
    (hc : (matchTok la 14 || matchTok la 15 || matchTok la 16) = true) :
    parseCondLoop la (t :: ts) =
      (match h : condGroup t ts with
       | .error e => .error e
       | .ok (la2, ts2) => parseCondLoop la2 ts2) := by
  rw [parseCondLoop.eq_def, hc, if_pos rfl]

/-- The connector loop agrees with the spec recognizer on streams that
still contain the end marker. -/
theorem condLoop_equiv : ∀ (n : Nat) (la : Symbol) (ts : List Symbol), ts.length ≤ n →
    0 ∈ la.sym :: ts.map Symbol.sym →
    specCondTail (la.sym :: ts.map Symbol.sym) = resKinds (parseCondLoop la ts) := by
  intro n
  induction n with
  | zero =>
    intro la ts hlen h0
    have hts : ts = [] := List.eq_nil_of_length_eq_zero (Nat.le_zero.mp hlen)
    subst hts
    simp only [List.map_nil, List.mem_cons, List.not_mem_nil, or_false] at h0
    have hc : isConnK la.sym = false := by
      simp [isConnK, show la.sym = 0 from h0.symm]
    have hb : (matchTok la 14 || matchTok la 15 || matchTok la 16) = false := hc
    rw [parseCondLoop_eq, hb]
    rw [specCondTail_eq]
    simp [hc, resKinds]
  | succ n ih =>
    intro n2la ts hlen h0
    by_cases hc : isConnK n2la.sym = true
    · have hb : (matchTok n2la 14 || matchTok n2la 15 || matchTok n2la 16) = true := hc
      have h0' : 0 ∈ ts.map Symbol.sym := by
        rcases List.mem_cons.mp h0 with h | h
        · exact absurd h.symm (connK_ne_zero hc)
        · exact h
      cases ts with
      | nil => simp at h0'
      | cons t ts' =>
        have hge := condGroup_equiv t ts' (by simpa using h0')
        cases hcg : condGroup t ts' with
        | error e =>
          have hsg : specGroup ((t :: ts').map Symbol.sym) = none := by
            rw [List.map_cons, hge, hcg]
            rfl
          have hspec : specCondTail (n2la.sym :: (t :: ts').map Symbol.sym) = none := by
            rw [specCondTail_cons, if_pos (show isConnK n2la.sym = true from hc)]
            split
            · next r2 heq => rw [hsg] at heq; exact Option.noConfusion heq
            · rfl
          have hpars : resKinds (parseCondLoop n2la (t :: ts')) = none := by
            rw [parseCondLoop_cons n2la t ts' hb]
            split
            · rfl
            · next la3 ts3 heq2 => rw [hcg] at heq2; exact Except.noConfusion heq2
          rw [hspec, hpars]
        | ok p =>
          obtain ⟨la2, ts2⟩ := p
          have hsg : specGroup ((t :: ts').map Symbol.sym) =
              some (la2.sym :: ts2.map Symbol.sym) := by
            rw [List.map_cons, hge, hcg]
            rfl
          have h02 : 0 ∈ la2.sym :: ts2.map Symbol.sym :=
            specGroup_zero hsg (by simpa using h0')
          have hlen2 : ts2.length ≤ n := by
            have hcl := condGroup_ok_length hcg
            simp at hlen
            omega
          have hrec := ih la2 ts2 hlen2 h02
          have hspec : specCondTail (n2la.sym :: (t :: ts').map Symbol.sym) =
              specCondTail (la2.sym :: ts2.map Symbol.sym) := by
            rw [specCondTail_cons, if_pos (show isConnK n2la.sym = true from hc)]
            split
            · next r2 heq =>
              rw [hsg] at heq
              injection heq with h'
              rw [← h']
            · next heq => rw [hsg] at heq; exact Option.noConfusion heq
          have hpars : parseCondLoop n2la (t :: ts') = parseCondLoop la2 ts2 := by
            rw [parseCondLoop_cons n2la t ts' hb]
            split
            · next e heq2 => rw [hcg] at heq2; exact Except.noConfusion heq2
            · next la3 ts3 heq2 =>
              rw [hcg] at heq2
              injection heq2 with h'
              injection h' with f1 f2
              rw [← f1, ← f2]
          rw [hspec, hpars, hrec]
    · have hc2 : isConnK n2la.sym = false := by simpa using hc
      have hb : (matchTok n2la 14 || matchTok n2la 15 || matchTok n2la 16) = false := hc2
      rw [parseCondLoop_eq, hb]
      rw [specCondTail_eq]
      simp [hc2, resKinds]

/-!
## Equivalence of the full validator with the spec grammar
-/

theorem expectTok_isOk (la : Symbol) (ts : List Symbol) (k : Nat) (msg : String) :
    (expectTok la ts k msg).isOk = (la.sym == k) := by
  simp only [expectTok, matchTok]
  by_cases hb : (la.sym == k) = true
  · rw [if_pos hb, hb]
    rfl
  · have hb' : (la.sym == k) = false := by simpa using hb
    rw [if_neg hb, hb']
    rfl

theorem specSelTail_cons (k : Nat) (r : List Nat) :
    specSelTail (k :: r) =
      (if k == 3 then
        match r with
        | [] => none
        | k2 :: r2 => if isSelOperandK k2 then specSelTail r2 else none
      else some (k :: r)) := by
  rw [specSelTail.eq_def]

theorem specSelTail_zero : ∀ (n : Nat) (r r3 : List Nat), r.length ≤ n →
    specSelTail r = some r3 → 0 ∈ r → 0 ∈ r3 := by
  intro n
  induction n with
  | zero =>
    intro r r3 hlen h h0
    have : r = [] := List.eq_nil_of_length_eq_zero (Nat.le_zero.mp hlen)
    subst this
    simp at h0
  | succ n ih =>
    intro r r3 hlen h h0
    cases r with
    | nil => simp at h0
    | cons k r1 =>
      rw [specSelTail_cons] at h
      split at h
      · next h3 =>
        cases r1 with
        | nil => exact Option.noConfusion h
        | cons k2 r2 =>
          simp only at h
          split at h
          · next hop =>
            have h0' : 0 ∈ r2 := by
              simp only [List.mem_cons] at h0
              rcases h0 with h' | h' | h'
              · rw [beq_iff_eq] at h3; omega
              · exact absurd h'.symm (selOperandK_ne_zero hop)
              · exact h'
            exact ih r2 r3 (by simp at hlen; omega) h h0'
          · exact Option.noConfusion h
      · injection h with h'
        subst h'
        exact h0

theorem specSelList_zero {l r3 : List Nat} (h : specSelList l = some r3) (h0 : 0 ∈ l) :
    0 ∈ r3 := by
  cases l with
  | nil => exact Option.noConfusion h
  | cons k r =>
    simp only [specSelList] at h
    split at h
    · next h5 =>
      injection h with h'
      subst h'
      simp only [List.mem_cons] at h0
      rcases h0 with h' | h'
      · rw [beq_iff_eq] at h5; omega
      · exact h'
    · next h5 =>
      split at h
      · next hop =>
        have h0' : 0 ∈ r := by
          simp only [List.mem_cons] at h0
          rcases h0 with h' | h'
          · exact absurd h'.symm (selOperandK_ne_zero hop)
          · exact h'
        exact specSelTail_zero r.length r r3 le_rfl h h0'
      · exact Option.noConfusion h

/-- The select list agrees with the spec recognizer on streams that still
contain the end marker. -/
theorem selList_equiv (la : Symbol) (ts : List Symbol)
    (h0 : 0 ∈ la.sym :: ts.map Symbol.sym) :
    specSelList (la.sym :: ts.map Symbol.sym) = resKinds (parseSelectList la ts) := by
  by_cases h5 : (la.sym == 5) = true
  · have h0' : 0 ∈ ts.map Symbol.sym := by
      rcases List.mem_cons.mp h0 with h | h
      · rw [beq_iff_eq] at h5; omega
      · exact h
    cases ts with
    | nil => simp at h0'
    | cons t ts' =>
      have hspec : specSelList (la.sym :: (t :: ts').map Symbol.sym) =
          some ((t :: ts').map Symbol.sym) := by
        simp only [specSelList]
        rw [if_pos h5]
      have hpars : parseSelectList la (t :: ts') = .ok (t, ts') := by
        simp only [parseSelectList, matchTok]
        rw [if_pos h5]
        rfl
      rw [hspec, hpars]
      rfl
  · by_cases hop : isSelOperandK la.sym = true
    · have h0' : 0 ∈ ts.map Symbol.sym := by
        rcases List.mem_cons.mp h0 with h | h
        · exact absurd h.symm (selOperandK_ne_zero hop)
        · exact h
      cases ts with
      | nil => simp at h0'
      | cons t ts' =>
        have hpi := @parseIdentifierTok_eval_ok la (t :: ts')
          "Expected field name in SELECT list" hop
        have hpars : parseSelectList la (t :: ts') = parseSelectLoop t ts' := by
          simp only [parseSelectList, matchTok]
          rw [if_neg h5]
          simp only [bind, Except.bind, hpi, popTok]
        have hrec := selLoop_equiv ts'.length t ts' le_rfl (by simpa using h0')
        have h5' : (la.sym == 5) = false := by simpa using h5
        have hspec : specSelList (la.sym :: (t :: ts').map Symbol.sym) =
            specSelTail ((t :: ts').map Symbol.sym) := by
          simp only [specSelList]
          rw [if_neg (by simp [h5'] : ¬ (la.sym == 5) = true), if_pos hop]
        rw [hspec, hpars, List.map_cons]
        exact hrec
    · have h5' : (la.sym == 5) = false := by simpa using h5
      have hop' : isSelOperandK la.sym = false := by simpa using hop
      have hpe := @parseIdentifierTok_eval_err la ts
        "Expected field name in SELECT list" hop'
      have hspec : specSelList (la.sym :: ts.map Symbol.sym) = none := by
        simp only [specSelList]
        rw [if_neg (by simp [h5'] : ¬ (la.sym == 5) = true),
          if_neg (by simp [hop'] : ¬ isSelOperandK la.sym = true)]
      have hpars : parseSelectList la ts =
          .error ("Expected field name in SELECT list" ++ " but found: " ++ tokenName la, ts) := by
        simp only [parseSelectList, matchTok]
        rw [if_neg h5]
        simp only [bind, Except.bind, hpe]
      rw [hspec, hpars]
      rfl

/-- The WHERE-and-end tail agrees with the spec recognizer on streams that
still contain the end marker. -/
theorem whereEnd_equiv (la : Symbol) (ts : List Symbol)
    (h0 : 0 ∈ la.sym :: ts.map Symbol.sym) :
    specWhereEnd (la.sym :: ts.map Symbol.sym) = (parseWhereEnd la ts).isOk := by
  by_cases h13 : (la.sym == 13) = true
  · have h0' : 0 ∈ ts.map Symbol.sym := by
      rcases List.mem_cons.mp h0 with h | h
      · rw [beq_iff_eq] at h13; omega
      · exact h
    cases ts with
    | nil => simp at h0'
    | cons t ts' =>
      have h0'' : 0 ∈ t.sym :: ts'.map Symbol.sym := by simpa using h0'
      have hge := condGroup_equiv t ts' h0''
      cases hcg : condGroup t ts' with
      | error e =>
        have hsg : specGroup (t.sym :: ts'.map Symbol.sym) = none := by
          rw [hge, hcg]; rfl
        have hspec : specWhereEnd (la.sym :: (t :: ts').map Symbol.sym) = false := by
          simp only [specWhereEnd, List.map_cons]
          rw [if_pos h13, hsg]
        have hpars : parseWhereEnd la (t :: ts') = .error e := by
          simp only [parseWhereEnd, matchTok]
          rw [if_pos h13]
          simp only [popTok, parseCondition, bind, Except.bind, hcg]
        rw [hspec, hpars]
        rfl
      | ok p =>
        obtain ⟨a, b⟩ := p
        have hsg : specGroup (t.sym :: ts'.map Symbol.sym) =
            some (a.sym :: b.map Symbol.sym) := by
          rw [hge, hcg]; rfl
        have h0g : 0 ∈ a.sym :: b.map Symbol.sym := specGroup_zero hsg h0''
        have hcl := condLoop_equiv b.length a b le_rfl h0g
        cases hpl : parseCondLoop a b with
        | error e2 =>
          have hct : specCondTail (a.sym :: b.map Symbol.sym) = none := by
            rw [hcl, hpl]; rfl
          have hspec : specWhereEnd (la.sym :: (t :: ts').map Symbol.sym) = false := by
            simp only [specWhereEnd, List.map_cons]
            rw [if_pos h13, hsg]
            show (match specCondTail (a.sym :: List.map Symbol.sym b) with
                  | some (k2 :: _) => k2 == 0
                  | _ => false) = false
            rw [hct]
          have hpars : parseWhereEnd la (t :: ts') = .error e2 := by
            simp only [parseWhereEnd, matchTok]
            rw [if_pos h13]
            simp only [popTok, parseCondition, bind, Except.bind, hcg, hpl]
          rw [hspec, hpars]
          rfl
        | ok q =>
          obtain ⟨c, d⟩ := q
          have hct : specCondTail (a.sym :: b.map Symbol.sym) =
              some (c.sym :: d.map Symbol.sym) := by
            rw [hcl, hpl]; rfl
          have hspec : specWhereEnd (la.sym :: (t :: ts').map Symbol.sym) =
              (c.sym == 0) := by
            simp only [specWhereEnd, List.map_cons]
            rw [if_pos h13, hsg]
            show (match specCondTail (a.sym :: List.map Symbol.sym b) with
                  | some (k2 :: _) => k2 == 0
                  | _ => false) = (c.sym == 0)
            rw [hct]
          have hpars : parseWhereEnd la (t :: ts') =
              expectTok c d 0 "Unexpected tokens after end of query" := by
            simp only [parseWhereEnd, matchTok]
            rw [if_pos h13]
            simp only [popTok, parseCondition, bind, Except.bind, hcg, hpl]
          rw [hspec, hpars, expectTok_isOk]
  · have h13' : (la.sym == 13) = false := by simpa using h13
    have hspec : specWhereEnd (la.sym :: ts.map Symbol.sym) = (la.sym == 0) := by
      simp only [specWhereEnd]
      rw [if_neg (by simp [h13'] : ¬ (la.sym == 13) = true)]
    have hpars : parseWhereEnd la ts =
        expectTok la ts 0 "Unexpected tokens after end of query" := by
      simp only [parseWhereEnd, matchTok]
      rw [if_neg h13]
      simp only [bind, Except.bind]
    rw [hspec, hpars, expectTok_isOk]

/-- The FROM-table-WHERE-end tail agrees with the spec recognizer on streams
that still contain the end marker. -/
theorem fromRest_equiv (la : Symbol) (ts : List Symbol)
    (h0 : 0 ∈ la.sym :: ts.map Symbol.sym) :
    specFrom (la.sym :: ts.map Symbol.sym) = (parseFromRest la ts).isOk := by
  by_cases h9 : (la.sym == 9) = true
  · have h0' : 0 ∈ ts.map Symbol.sym := by
      rcases List.mem_cons.mp h0 with h | h
      · rw [beq_iff_eq] at h9; omega
      · exact h
    cases ts with
    | nil => simp at h0'
    | cons t ts' =>
      by_cases hop : isSelOperandK t.sym = true
      · have h0'' : 0 ∈ ts'.map Symbol.sym := by
          simp only [List.map_cons, List.mem_cons] at h0'
          rcases h0' with h | h
          · exact absurd h.symm (selOperandK_ne_zero hop)
          · exact h
        cases ts' with
        | nil => simp at h0''
        | cons u us =>
          have hpi := @parseIdentifierTok_eval_ok t (u :: us)
            "Expected table name after FROM" hop
          have hwe := whereEnd_equiv u us (by simpa using h0'')
          have hspec : specFrom (la.sym :: (t :: u :: us).map Symbol.sym) =
              specWhereEnd (u.sym :: us.map Symbol.sym) := by
            simp only [specFrom, List.map_cons]
            rw [if_pos h9]
            show (if isSelOperandK t.sym then
                    specWhereEnd (u.sym :: List.map Symbol.sym us)
                  else false) = _
            rw [if_pos hop]
          have hpars : parseFromRest la (t :: u :: us) = parseWhereEnd u us := by
            simp only [parseFromRest]
            rw [expectTok_eval_ok h9]
            simp only [bind, Except.bind, popTok, hpi]
          rw [hspec, hpars]
          exact hwe
      · have hop' : isSelOperandK t.sym = false := by simpa using hop
        have hpe := @parseIdentifierTok_eval_err t ts'
          "Expected table name after FROM" hop'
        have hspec : specFrom (la.sym :: (t :: ts').map Symbol.sym) = false := by
          simp only [specFrom, List.map_cons]
          rw [if_pos h9]
          cases ts' with
          | nil => rw [if_neg (by simp [hop'] : ¬ isSelOperandK t.sym = true)]
          | cons u us =>
            show (if isSelOperandK t.sym then
                    specWhereEnd (u.sym :: List.map Symbol.sym us)
                  else false) = false
            rw [if_neg (by simp [hop'] : ¬ isSelOperandK t.sym = true)]
        have hpars : parseFromRest la (t :: ts') =
            .error ("Expected table name after FROM" ++ " but found: " ++ tokenName t, ts') := by
          simp only [parseFromRest]
          rw [expectTok_eval_ok h9]
          simp only [bind, Except.bind, popTok, hpe]
        rw [hspec, hpars]
        rfl
  · have h9' : (la.sym == 9) = false := by simpa using h9
    have hspec : specFrom (la.sym :: ts.map Symbol.sym) = false := by
      simp only [specFrom]
      rw [if_neg (by simp [h9'] : ¬ (la.sym == 9) = true)]
    have hee := @expectTok_eval_err la ts 9 "Expected FROM" h9'
    have hpars : parseFromRest la ts =
        .error ("Expected FROM" ++ " but found: " ++ tokenName la, ts) := by
      simp only [parseFromRest]
      rw [hee]
      simp only [bind, Except.bind]
    rw [hspec, hpars]
    rfl

theorem specAccepts_cons (k0 : Nat) (r : List Nat) :
    specAccepts (k0 :: r) =
      (if k0 == 7 then
        match (match r with
               | [] => r
               | k3 :: rr => if k3 == 8 then rr else k3 :: rr) with
        | [] => false
        | k2 :: r2 =>
          if k2 == 5 then specFrom r2
          else if isSelOperandK k2 then
            match specSelTail r2 with
            | some r3 => specFrom r3
            | none => false
          else false
      else false) := rfl

/-- The select-list portion of `specAccepts`, rephrased through
`specSelList`. -/
theorem specAccepts_selPart (k2 : Nat) (r2 : List Nat) :
    (if k2 == 5 then specFrom r2
     else if isSelOperandK k2 then
       match specSelTail r2 with
       | some r3 => specFrom r3
       | none => false
     else false) =
    (match specSelList (k2 :: r2) with
     | some r3 => specFrom r3
     | none => false) := by
  simp only [specSelList]
  by_cases h5 : (k2 == 5) = true
  · rw [if_pos h5, if_pos h5]
  · rw [if_neg h5, if_neg h5]
    by_cases hop : isSelOperandK k2 = true
    · rw [if_pos hop, if_pos hop]
    · rw [if_neg hop, if_neg hop]

/-- `specAccepts` after SELECT and an explicit DISTINCT. -/
theorem specAccepts_distinct (k0 k1 k2 : Nat) (r2 : List Nat)
    (h7 : (k0 == 7) = true) (h8 : (k1 == 8) = true) :
    specAccepts (k0 :: k1 :: k2 :: r2) =
      (match specSelList (k2 :: r2) with
       | some r3 => specFrom r3
       | none => false) := by
  rw [specAccepts_cons, if_pos h7]
  show (match (if k1 == 8 then k2 :: r2 else k1 :: k2 :: r2) with
        | [] => false
        | k2 :: r2 =>
          if k2 == 5 then specFrom r2
          else if isSelOperandK k2 then
            match specSelTail r2 with
            | some r3 => specFrom r3
            | none => false
          else false) = _
  rw [if_pos h8]
  show (if k2 == 5 then specFrom r2
        else if isSelOperandK k2 then
          match specSelTail r2 with
          | some r3 => specFrom r3
          | none => false
        else false) = _
  exact specAccepts_selPart k2 r2

/-- `specAccepts` after SELECT with no DISTINCT. -/
theorem specAccepts_nodistinct (k0 k2 : Nat) (r2 : List Nat)
    (h7 : (k0 == 7) = true) (h8 : (k2 == 8) = false) :
    specAccepts (k0 :: k2 :: r2) =
      (match specSelList (k2 :: r2) with
       | some r3 => specFrom r3
       | none => false) := by
  rw [specAccepts_cons, if_pos h7]
  show (match (if k2 == 8 then r2 else k2 :: r2) with
        | [] => false
        | k2 :: r2 =>
          if k2 == 5 then specFrom r2
          else if isSelOperandK k2 then
            match specSelTail r2 with
            | some r3 => specFrom r3
            | none => false
          else false) = _
  rw [if_neg (by simp [h8] : ¬ (k2 == 8) = true)]
  show (if k2 == 5 then specFrom r2
        else if isSelOperandK k2 then
          match specSelTail r2 with
          | some r3 => specFrom r3
          | none => false
        else false) = _
  exact specAccepts_selPart k2 r2

/-- The embedded validator accepts exactly the spec grammar, on token
streams that contain the end marker. -/
theorem parseQuery_specAccepts (toks : List Symbol) (h0 : 0 ∈ toks.map Symbol.sym) :
    (parseQuery toks).isOk = specAccepts (toks.map Symbol.sym) := by
  cases toks with
  | nil => simp at h0
  | cons t0 rest =>
    by_cases h7 : (t0.sym == 7) = true
    · have h0' : 0 ∈ rest.map Symbol.sym := by
        simp only [List.map_cons, List.mem_cons] at h0
        rcases h0 with h | h
        · rw [beq_iff_eq] at h7; omega
        · exact h
      cases rest with
      | nil => simp at h0'
      | cons t1 rest2 =>
        by_cases h8 : (t1.sym == 8) = true
        · have h0'' : 0 ∈ rest2.map Symbol.sym := by
            simp only [List.map_cons, List.mem_cons] at h0'
            rcases h0' with h | h
            · rw [beq_iff_eq] at h8; omega
            · exact h
          cases rest2 with
          | nil => simp at h0''
          | cons t2 rest3 =>
            have h0m : 0 ∈ t2.sym :: rest3.map Symbol.sym := by simpa using h0''
            have hsel := selList_equiv t2 rest3 h0m
            cases hsl : parseSelectList t2 rest3 with
            | error e =>
              rw [hsl] at hsel
              have hq : parseQuery (t0 :: t1 :: t2 :: rest3) = .error e := by
                simp only [parseQuery, popTok]
                rw [expectTok_eval_ok h7]
                simp only [bind, Except.bind, popTok]
                rw [if_pos (show matchTok t1 8 = true from h8)]
                simp only [hsl]
              rw [hq, List.map_cons, List.map_cons, List.map_cons,
                specAccepts_distinct t0.sym t1.sym t2.sym (rest3.map Symbol.sym) h7 h8,
                show specSelList (t2.sym :: rest3.map Symbol.sym) = none from hsel]
              rfl
            | ok p =>
              obtain ⟨la4, ts4⟩ := p
              rw [hsl] at hsel
              have hsel' : specSelList (t2.sym :: rest3.map Symbol.sym) =
                  some (la4.sym :: ts4.map Symbol.sym) := hsel
              have hq : parseQuery (t0 :: t1 :: t2 :: rest3) = parseFromRest la4 ts4 := by
                simp only [parseQuery, popTok]
                rw [expectTok_eval_ok h7]
                simp only [bind, Except.bind, popTok]
                rw [if_pos (show matchTok t1 8 = true from h8)]
                simp only [hsl]
              rw [hq, List.map_cons, List.map_cons, List.map_cons,
                specAccepts_distinct t0.sym t1.sym t2.sym (rest3.map Symbol.sym) h7 h8,
                hsel']
              exact (fromRest_equiv la4 ts4 (specSelList_zero hsel' h0m)).symm
        · have h8' : (t1.sym == 8) = false := by simpa using h8
          have h0m : 0 ∈ t1.sym :: rest2.map Symbol.sym := by simpa using h0'
          have hsel := selList_equiv t1 rest2 h0m
          cases hsl : parseSelectList t1 rest2 with
          | error e =>
            rw [hsl] at hsel
            have hq : parseQuery (t0 :: t1 :: rest2) = .error e := by
              simp only [parseQuery, popTok]
              rw [expectTok_eval_ok h7]
              simp only [bind, Except.bind, popTok]
              rw [if_neg (show ¬ matchTok t1 8 = true from by simp [matchTok, h8'])]
              simp only [hsl]
            rw [hq, List.map_cons, List.map_cons,
              specAccepts_nodistinct t0.sym t1.sym (rest2.map Symbol.sym) h7 h8',
              show specSelList (t1.sym :: rest2.map Symbol.sym) = none from hsel]
            rfl
          | ok p =>
            obtain ⟨la4, ts4⟩ := p
            rw [hsl] at hsel
            have hsel' : specSelList (t1.sym :: rest2.map Symbol.sym) =
                some (la4.sym :: ts4.map Symbol.sym) := hsel
            have hq : parseQuery (t0 :: t1 :: rest2) = parseFromRest la4 ts4 := by
              simp only [parseQuery, popTok]
              rw [expectTok_eval_ok h7]
              simp only [bind, Except.bind, popTok]
              rw [if_neg (show ¬ matchTok t1 8 = true from by simp [matchTok, h8'])]
              simp only [hsl]
            rw [hq, List.map_cons, List.map_cons,
              specAccepts_nodistinct t0.sym t1.sym (rest2.map Symbol.sym) h7 h8',
              hsel']
            exact (fromRest_equiv la4 ts4 (specSelList_zero hsel' h0m)).symm
    · have h7' : (t0.sym == 7) = false := by simpa using h7
      have hq : parseQuery (t0 :: rest) =
          .error ("Expected SELECT" ++ " but found: " ++ tokenName t0, rest) := by
        simp only [parseQuery, popTok]
        rw [expectTok_eval_err h7']
        simp only [bind, Except.bind]
      have hspec : specAccepts ((t0 :: rest).map Symbol.sym) = false := by
        rw [List.map_cons, specAccepts_cons,
          if_neg (by simp [h7'] : ¬ (t0.sym == 7) = true)]
      rw [hq, hspec]
      rfl

/-!
## Claim C2: grammar acceptance

The validator accepts exactly the token-kind language of §4.2, and the
spec's concrete examples behave as stated.
-/

/-- C2: `parseQuery` accepts exactly the token streams of the spec grammar —
SELECT, optional DISTINCT, a `*` or a comma-separated identifier/field list,
FROM and one identifier/field, an optional WHERE clause of condition groups
chained by AND/OR/XOR, then end-of-input (stated via the transcribed
recognizer `specAccepts`, for streams containing the end-marker kind 0,
which every complete scanner stream carries); in particular
`SELECT * FROM users` validates, and a trailing token after a complete
query is an error. -/
theorem C2_grammar_acceptance :
    (∀ ts : List Symbol, 0 ∈ ts.map Symbol.sym →
      (parseQuery ts).isOk = specAccepts (ts.map Symbol.sym))
    ∧ pipelineOk "SELECT * FROM users" = true
    ∧ pipelineOk "SELECT * FROM users users" = false :=
  ⟨parseQuery_specAccepts, by decide, by decide⟩

theorem C2_grammar_acceptance_witness :
    0 ∈ ([⟨7, 0, 0, none⟩, ⟨5, 0, 7, none⟩, ⟨9, 0, 9, none⟩,
          ⟨29, 0, 14, some (.str "users")⟩, ⟨0, 0, 19, none⟩] : List Symbol).map Symbol.sym
    ∧ (parseQuery [⟨7, 0, 0, none⟩, ⟨5, 0, 7, none⟩, ⟨9, 0, 9, none⟩,
          ⟨29, 0, 14, some (.str "users")⟩, ⟨0, 0, 19, none⟩]).isOk =
        specAccepts (([⟨7, 0, 0, none⟩, ⟨5, 0, 7, none⟩, ⟨9, 0, 9, none⟩,
          ⟨29, 0, 14, some (.str "users")⟩, ⟨0, 0, 19, none⟩] : List Symbol).map Symbol.sym) :=
  ⟨by decide, C2_grammar_acceptance.1 _ (by decide)⟩

/-!
## Claim C3: rejection of the unused token kinds

The kinds the grammar never consumes.  `goodK` is the set of kinds the spec
grammar can consume before the end marker; `badK` the unused kinds named by
the claim (parentheses, JOIN, ON, AS, NOT, IN, IS, BETWEEN, ORDER, BY,
LIMIT, LIKE).
-/

def goodK : List Nat := [7, 8, 5, 3, 29, 28, 9, 13, 14, 15, 16, 6, 31, 30, 27, 20]

def badK : List Nat := [1, 2, 10, 11, 12, 17, 18, 19, 21, 22, 23, 24, 26]

theorem selOperandK_good {k : Nat} (h : isSelOperandK k = true) : k ∈ goodK := by
  simp only [isSelOperandK, Bool.or_eq_true, beq_iff_eq] at h
  rcases h with rfl | rfl <;> decide

theorem operandK_good {k : Nat} (h : isOperandK k = true) : k ∈ goodK := by
  simp only [isOperandK, Bool.or_eq_true, beq_iff_eq] at h
  rcases h with ((((rfl | rfl) | rfl) | rfl) | rfl) | rfl <;> decide

theorem connK_good {k : Nat} (h : isConnK k = true) : k ∈ goodK := by
  simp only [isConnK, Bool.or_eq_true, beq_iff_eq] at h
  rcases h with (rfl | rfl) | rfl <;> decide

theorem goodK_ne_zero {k : Nat} (h : k ∈ goodK) : k ≠ 0 := by
  have hall : goodK.all (fun x => x != 0) = true := by decide
  simpa using List.all_eq_true.mp hall k h

theorem badK_not_good {k : Nat} (hb : k ∈ badK) : k ∉ goodK := by
  have hall : badK.all (fun x => decide (x ∉ goodK)) = true := by decide
  exact of_decide_eq_true (List.all_eq_true.mp hall k hb)

theorem takeWhile_append_zero : ∀ (pre rest : List Nat), (∀ x ∈ pre, x ≠ 0) →
    List.takeWhile (fun y => y != 0) (pre ++ 0 :: rest) = pre := by
  intro pre
  induction pre with
  | nil => intro rest h; simp [List.takeWhile_cons]
  | cons a pre' ih =>
    intro rest h
    have ha : a ≠ 0 := h a (by simp)
    simp only [List.cons_append, List.takeWhile_cons]
    rw [show (a != 0) = true from by simpa using ha, if_pos rfl,
      ih rest (fun x hx => h x (List.mem_cons_of_mem a hx))]

theorem specSelTail_nil : specSelTail [] = some [] := by
  rw [specSelTail.eq_def]

theorem specCondTail_nil : specCondTail [] = some [] := by
  rw [specCondTail.eq_def]

/-- The kinds a successful `specGroup` consumes are all grammar kinds. -/
theorem specGroup_decomp {l r : List Nat} (h : specGroup l = some r) :
    ∃ pre, l = pre ++ r ∧ ∀ x ∈ pre, x ∈ goodK := by
  cases l with
  | nil => exact Option.noConfusion h
  | cons a r1 =>
    simp only [specGroup] at h
    split at h
    · next hA =>
      cases r1 with
      | nil => exact Option.noConfusion h
      | cons op r2 =>
        simp only at h
        split at h
        · next hOp =>
          cases r2 with
          | nil => exact Option.noConfusion h
          | cons b r3 =>
            simp only at h
            split at h
            · next hB =>
              injection h with h'
              subst h'
              refine ⟨[a, op, b], rfl, ?_⟩
              intro x hx
              simp only [List.mem_cons, List.not_mem_nil, or_false] at hx
              rcases hx with rfl | rfl | rfl
              · exact operandK_good hA
              · rw [beq_iff_eq] at hOp; subst hOp; decide
              · exact operandK_good hB
            · exact Option.noConfusion h
        · exact Option.noConfusion h
    · exact Option.noConfusion h

/-- The kinds a successful `specSelTail` consumes are all grammar kinds. -/
theorem specSelTail_decomp : ∀ (n : Nat) (l r : List Nat), l.length ≤ n →
    specSelTail l = some r → ∃ pre, l = pre ++ r ∧ ∀ x ∈ pre, x ∈ goodK := by
  intro n
  induction n with
  | zero =>
    intro l r hlen h
    have : l = [] := List.eq_nil_of_length_eq_zero (Nat.le_zero.mp hlen)
    subst this
    rw [specSelTail_nil] at h
    injection h with h'
    exact ⟨[], by simp [← h'], by intro x hx; simp at hx⟩
  | succ n ih =>
    intro l r hlen h
    cases l with
    | nil =>
      rw [specSelTail_nil] at h
      injection h with h'
      exact ⟨[], by simp [← h'], by intro x hx; simp at hx⟩
    | cons k r1 =>
      rw [specSelTail_cons] at h
      split at h
      · next h3 =>
        cases r1 with
        | nil => exact Option.noConfusion h
        | cons k2 r2 =>
          simp only at h
          split at h
          · next hop =>
            obtain ⟨pre, hsplit, hgood⟩ := ih r2 r (by simp at hlen; omega) h
            refine ⟨k :: k2 :: pre, by simp [hsplit], ?_⟩
            intro x hx
            simp only [List.mem_cons] at hx
            rcases hx with rfl | rfl | hx
            · rw [beq_iff_eq] at h3; subst h3; decide
            · exact selOperandK_good hop
            · exact hgood x hx
          · exact Option.noConfusion h
      · injection h with h'
        exact ⟨[], by simp [← h'], by intro x hx; simp at hx⟩

/-- The kinds a successful `specCondTail` consumes are all grammar kinds. -/
theorem specCondTail_decomp : ∀ (n : Nat) (l r : List Nat), l.length ≤ n →
    specCondTail l = some r → ∃ pre, l = pre ++ r ∧ ∀ x ∈ pre, x ∈ goodK := by
  intro n
  induction n with
  | zero =>
    intro l r hlen h
    have : l = [] := List.eq_nil_of_length_eq_zero (Nat.le_zero.mp hlen)
    subst this
    rw [specCondTail_nil] at h
    injection h with h'
    exact ⟨[], by simp [← h'], by intro x hx; simp at hx⟩
  | succ n ih =>
    intro l r hlen h
    cases l with
    | nil =>
      rw [specCondTail_nil] at h
      injection h with h'
      exact ⟨[], by simp [← h'], by intro x hx; simp at hx⟩
    | cons k r1 =>
      rw [specCondTail_cons] at h
      split at h
      · next hc =>
        split at h
        · next r2 heq =>
          obtain ⟨pre1, hs1, hg1⟩ := specGroup_decomp heq
          have hlen2 : r2.length ≤ n := by
            have := specGroup_some_length heq
            simp at hlen
            omega
          obtain ⟨pre2, hs2, hg2⟩ := ih r2 r hlen2 h
          refine ⟨k :: pre1 ++ pre2, by simp [hs1, hs2], ?_⟩
          intro x hx
          simp only [List.cons_append, List.mem_cons, List.mem_append] at hx
          rcases hx with rfl | hx | hx
          · exact connK_good hc
          · exact hg1 x hx
          · exact hg2 x hx
        · exact Option.noConfusion h
      · injection h with h'
        exact ⟨[], by simp [← h'], by intro x hx; simp at hx⟩

/-- The kinds a successful `specSelList` consumes are all grammar kinds. -/
theorem specSelList_decomp {l r : List Nat} (h : specSelList l = some r) :
    ∃ pre, l = pre ++ r ∧ ∀ x ∈ pre, x ∈ goodK := by
  cases l with
  | nil => exact Option.noConfusion h
  | cons k r1 =>
    simp only [specSelList] at h
    split at h
    · next h5 =>
      injection h with h'
      refine ⟨[k], by simp [← h'], ?_⟩
      intro x hx
      simp only [List.mem_cons, List.not_mem_nil, or_false] at hx
      subst hx
      rw [beq_iff_eq] at h5
      subst h5
      decide
    · next h5 =>
      split at h
      · next hop =>
        obtain ⟨pre, hsplit, hgood⟩ := specSelTail_decomp r1.length r1 r le_rfl h
        refine ⟨k :: pre, by simp [hsplit], ?_⟩
        intro x hx
        simp only [List.mem_cons] at hx
        rcases hx with rfl | hx
        · exact selOperandK_good hop
        · exact hgood x hx
      · exact Option.noConfusion h

/-- A true `specWhereEnd` splits its input into consumed grammar kinds, the
end marker, and an unread tail. -/
theorem specWhereEnd_decomp {l : List Nat} (h : specWhereEnd l = true) :
    ∃ pre rest, l = pre ++ 0 :: rest ∧ ∀ x ∈ pre, x ∈ goodK := by
  cases l with
  | nil => exact Bool.noConfusion h
  | cons k r1 =>
    simp only [specWhereEnd] at h
    split at h
    · next h13 =>
      cases hsg : specGroup r1 with
      | none => rw [hsg] at h; exact Bool.noConfusion h
      | some r2 =>
        rw [hsg] at h
        simp only at h
        cases hct : specCondTail r2 with
        | none => rw [hct] at h; exact Bool.noConfusion h
        | some r3 =>
          rw [hct] at h
          cases r3 with
          | nil => exact Bool.noConfusion h
          | cons k2 tail =>
            have h2 : (k2 == 0) = true := h
            rw [beq_iff_eq] at h2
            subst h2
            obtain ⟨pre1, hs1, hg1⟩ := specGroup_decomp hsg
            obtain ⟨pre2, hs2, hg2⟩ := specCondTail_decomp r2.length r2 _ le_rfl hct
            refine ⟨k :: pre1 ++ pre2, tail, by simp [hs1, hs2], ?_⟩
            intro x hx
            simp only [List.cons_append, List.mem_cons, List.mem_append] at hx
            rcases hx with rfl | hx | hx
            · rw [beq_iff_eq] at h13; subst h13; decide
            · exact hg1 x hx
            · exact hg2 x hx
    · next h13 =>
      rw [beq_iff_eq] at h
      subst h
      exact ⟨[], r1, rfl, by intro x hx; simp at hx⟩

/-- A true `specFrom` splits its input into consumed grammar kinds, the end
marker, and an unread tail. -/
theorem specFrom_decomp {l : List Nat} (h : specFrom l = true) :
    ∃ pre rest, l = pre ++ 0 :: rest ∧ ∀ x ∈ pre, x ∈ goodK := by
  cases l with
  | nil => exact Bool.noConfusion h
  | cons k r1 =>
    simp only [specFrom] at h
    split at h
    · next h9 =>
      cases r1 with
      | nil => exact Bool.noConfusion h
      | cons k2 r2 =>
        simp only at h
        split at h
        · next hop =>
          obtain ⟨pre, rest, hsplit, hgood⟩ := specWhereEnd_decomp h
          refine ⟨k :: k2 :: pre, rest, by simp [hsplit], ?_⟩
          intro x hx
          simp only [List.mem_cons] at hx
          rcases hx with rfl | rfl | hx
          · rw [beq_iff_eq] at h9; subst h9; decide
          · exact selOperandK_good hop
          · exact hgood x hx
        · exact Bool.noConfusion h
    · exact Bool.noConfusion h

/-- An accepted stream splits into consumed grammar kinds, the end marker,
and an unread tail. -/
theorem specAccepts_decomp {l : List Nat} (h : specAccepts l = true) :
    ∃ pre rest, l = pre ++ 0 :: rest ∧ ∀ x ∈ pre, x ∈ goodK := by
  cases l with
  | nil => exact Bool.noConfusion h
  | cons k r1 =>
    rw [specAccepts_cons] at h
    split at h
    · next h7 =>
      cases r1 with
      | nil => exact Bool.noConfusion h
      | cons k3 rr =>
        simp only at h
        by_cases h8 : (k3 == 8) = true
        · rw [if_pos h8] at h
          cases rr with
          | nil => exact Bool.noConfusion h
          | cons k2 r2 =>
            simp only at h
            rw [specAccepts_selPart] at h
            cases hsl : specSelList (k2 :: r2) with
            | none => rw [hsl] at h; exact Bool.noConfusion h
            | some r3 =>
              rw [hsl] at h
              have h' : specFrom r3 = true := h
              obtain ⟨pre1, hs1, hg1⟩ := specSelList_decomp hsl
              obtain ⟨pre2, rest, hs2, hg2⟩ := specFrom_decomp h'
              refine ⟨k :: k3 :: pre1 ++ pre2, rest, ?_, ?_⟩
              · rw [show k2 :: r2 = pre1 ++ r3 from hs1, hs2]
                simp
              · intro x hx
                simp only [List.cons_append, List.mem_cons, List.mem_append] at hx
                rcases hx with rfl | rfl | hx | hx
                · rw [beq_iff_eq] at h7; subst h7; decide
                · rw [beq_iff_eq] at h8; subst h8; decide
                · exact hg1 x hx
                · exact hg2 x hx
        · rw [if_neg h8] at h
          simp only at h
          rw [specAccepts_selPart] at h
          cases hsl : specSelList (k3 :: rr) with
          | none => rw [hsl] at h; exact Bool.noConfusion h
          | some r3 =>
            rw [hsl] at h
            have h' : specFrom r3 = true := h
            obtain ⟨pre1, hs1, hg1⟩ := specSelList_decomp hsl
            obtain ⟨pre2, rest, hs2, hg2⟩ := specFrom_decomp h'
            refine ⟨k :: pre1 ++ pre2, rest, ?_, ?_⟩
            · rw [show k3 :: rr = pre1 ++ r3 from hs1, hs2]
              simp
            · intro x hx
              simp only [List.cons_append, List.mem_cons, List.mem_append] at hx
              rcases hx with rfl | hx | hx
              · rw [beq_iff_eq] at h7; subst h7; decide
              · exact hg1 x hx
              · exact hg2 x hx
    · exact Bool.noConfusion h

/-- Every kind an accepted stream carries before its end marker is a
grammar kind. -/
theorem accepted_good (ts : List Symbol) (h0 : 0 ∈ ts.map Symbol.sym)
    (hok : (parseQuery ts).isOk = true) :
    ∀ x ∈ (ts.map Symbol.sym).takeWhile (fun y => y != 0), x ∈ goodK := by
  have hacc : specAccepts (ts.map Symbol.sym) = true := by
    rw [← parseQuery_specAccepts ts h0]
    exact hok
  obtain ⟨pre, rest, hsplit, hgood⟩ := specAccepts_decomp hacc
  intro x hx
  rw [hsplit, takeWhile_append_zero pre rest (fun y hy => goodK_ne_zero (hgood y hy))] at hx
  exact hgood x hx

/-- C3: the validator rejects every stream that carries one of the unused
kinds JOIN, ON, AS, NOT, IN, IS, BETWEEN, ORDER, BY, LIMIT, LIKE, `(` or
`)` before its end marker (stated for streams containing the end-marker
kind 0, which every complete scanner stream carries); in particular the
pipeline rejects `SELECT * FROM users LIMIT 10`. -/
theorem C3_unused_kind_rejection :
    (∀ (ts : List Symbol) (k : Nat), 0 ∈ ts.map Symbol.sym → k ∈ badK →
        k ∈ (ts.map Symbol.sym).takeWhile (fun y => y != 0) →
        (parseQuery ts).isOk = false)
    ∧ pipelineOk "SELECT * FROM users LIMIT 10" = false := by
  constructor
  · intro ts k h0 hb htw
    cases hq : (parseQuery ts).isOk with
    | false => rfl
    | true => exact absurd (accepted_good ts h0 hq k htw) (badK_not_good hb)
  · decide

theorem C3_unused_kind_rejection_witness :
    (0 ∈ ([⟨7, 0, 0, none⟩, ⟨24, 0, 7, none⟩, ⟨0, 0, 13, none⟩] : List Symbol).map Symbol.sym
      ∧ 24 ∈ badK
      ∧ 24 ∈ (([⟨7, 0, 0, none⟩, ⟨24, 0, 7, none⟩, ⟨0, 0, 13, none⟩] : List Symbol).map
          Symbol.sym).takeWhile (fun y => y != 0))
    ∧ (parseQuery [⟨7, 0, 0, none⟩, ⟨24, 0, 7, none⟩, ⟨0, 0, 13, none⟩]).isOk = false :=
  ⟨⟨by decide, by decide, by decide⟩,
    C3_unused_kind_rejection.1 _ 24 (by decide) (by decide) (by decide)⟩

/-!
## Claim C8: syntax-error message format

Every validator error message is an expectation text followed by
` but found: ` and the rendering of the offending token.
-/

/-- The eight expectation texts the validator can emit. -/
def expectationMsgs : List String :=
  ["Expected SELECT", "Expected field name in SELECT list",
   "Expected field name after comma", "Expected FROM",
   "Expected table name after FROM", "Expected operand",
   "Expected comparison operator", "Unexpected tokens after end of query"]

/-- A message obeying the failure-message contract of §4.2. -/
def errShape (m : String) : Prop :=
  ∃ e t, e ∈ expectationMsgs ∧ m = e ++ " but found: " ++ tokenName t

theorem expectTok_err_shape {la : Symbol} {ts : List Symbol} {k : Nat} {msg m : String}
    {r : List Symbol} (h : expectTok la ts k msg = .error (m, r)) :
    m = msg ++ " but found: " ++ tokenName la := by
  unfold expectTok at h
  split at h
  · exact Except.noConfusion h
  · injection h with h'
    injection h' with h1 h2
    exact h1.symm

theorem parseIdentifierTok_err_shape {la : Symbol} {ts : List Symbol} {msg m : String}
    {r : List Symbol} (h : parseIdentifierTok la ts msg = .error (m, r)) :
    m = msg ++ " but found: " ++ tokenName la := by
  unfold parseIdentifierTok at h
  split at h
  · exact Except.noConfusion h
  · injection h with h'
    injection h' with h1 h2
    exact h1.symm

theorem parseOperand_err_shape {la : Symbol} {ts : List Symbol} {m : String}
    {r : List Symbol} (h : parseOperand la ts = .error (m, r)) :
    m = "Expected operand" ++ " but found: " ++ tokenName la := by
  unfold parseOperand at h
  split at h
  · exact Except.noConfusion h
  · split at h
    · exact Except.noConfusion h
    · injection h with h'
      injection h' with h1 h2
      exact h1.symm

theorem condGroup_err_shape {la : Symbol} {ts : List Symbol} {m : String}
    {r : List Symbol} (h : condGroup la ts = .error (m, r)) : errShape m := by
  cases h1 : parseOperand la ts with
  | error e =>
    obtain ⟨m1, r1⟩ := e
    simp only [condGroup, h1, bind, Except.bind] at h
    injection h with h'
    injection h' with e1 e2
    subst e1
    exact ⟨"Expected operand", la, by decide, parseOperand_err_shape h1⟩
  | ok p =>
    obtain ⟨a, b⟩ := p
    cases h2 : expectTok a b 6 "Expected comparison operator" with
    | error e =>
      obtain ⟨m1, r1⟩ := e
      simp only [condGroup, h1, h2, bind, Except.bind] at h
      injection h with h'
      injection h' with e1 e2
      subst e1
      exact ⟨"Expected comparison operator", a, by decide, expectTok_err_shape h2⟩
    | ok q =>
      obtain ⟨c, d⟩ := q
      simp only [condGroup, h1, h2, bind, Except.bind] at h
      exact ⟨"Expected operand", c, by decide, parseOperand_err_shape h⟩

theorem parseSelectLoop_nil (la : Symbol) :
    parseSelectLoop la [] =
      (if matchTok la 3 then
        parseIdentifierTok eofDefault [] "Expected field name after comma"
      else .ok (la, [])) := by
  rw [parseSelectLoop.eq_def]

theorem parseSelectLoop_cons (la t : Symbol) (ts : List Symbol)
    (hc : matchTok la 3 = true) :
    parseSelectLoop la (t :: ts) =
      (match h : parseIdentifierTok t ts "Expected field name after comma" with
       | .error e => .error e
       | .ok (la2, ts2) => parseSelectLoop la2 ts2) := by
  rw [parseSelectLoop.eq_def, hc, if_pos rfl]

theorem parseCondLoop_nil (la : Symbol) :
    parseCondLoop la [] =
      (if matchTok la 14 || matchTok la 15 || matchTok la 16 then condGroup eofDefault []
       else .ok (la, [])) := by
  rw [parseCondLoop.eq_def]

theorem selLoop_err_shape : ∀ (n : Nat) (la : Symbol) (ts : List Symbol), ts.length ≤ n →
    ∀ m r, parseSelectLoop la ts = .error (m, r) → errShape m := by
  intro n
  induction n with
  | zero =>
    intro la ts hlen m r h
    have hts : ts = [] := List.eq_nil_of_length_eq_zero (Nat.le_zero.mp hlen)
    subst hts
    rw [parseSelectLoop_nil] at h
    split at h
    · exact ⟨"Expected field name after comma", eofDefault, by decide,
        parseIdentifierTok_err_shape h⟩
    · exact Except.noConfusion h
  | succ n ih =>
    intro la ts hlen m r h
    cases ts with
    | nil =>
      rw [parseSelectLoop_nil] at h
      split at h
      · exact ⟨"Expected field name after comma", eofDefault, by decide,
          parseIdentifierTok_err_shape h⟩
      · exact Except.noConfusion h
    | cons t ts' =>
      by_cases h3 : matchTok la 3 = true
      · rw [parseSelectLoop_cons la t ts' h3] at h
        split at h
        · next e heq =>
          obtain ⟨m1, r1⟩ := e
          injection h with h'
          injection h' with e1 e2
          subst e1
          exact ⟨"Expected field name after comma", t, by decide,
            parseIdentifierTok_err_shape heq⟩
        · next la2 ts2 heq =>
          have hl2 : ts2.length ≤ n := by
            have := parseIdentifierTok_ok_length heq
            simp at hlen
            omega
          exact ih la2 ts2 hl2 m r h
      · rw [parseSelectLoop.eq_def, if_neg h3] at h
        exact Except.noConfusion h

theorem condLoop_err_shape : ∀ (n : Nat) (la : Symbol) (ts : List Symbol), ts.length ≤ n →
    ∀ m r, parseCondLoop la ts = .error (m, r) → errShape m := by
  intro n
  induction n with
  | zero =>
    intro la ts hlen m r h
    have hts : ts = [] := List.eq_nil_of_length_eq_zero (Nat.le_zero.mp hlen)
    subst hts
    rw [parseCondLoop_nil] at h
    split at h
    · exact condGroup_err_shape h
    · exact Except.noConfusion h
  | succ n ih =>
    intro la ts hlen m r h
    cases ts with
    | nil =>
      rw [parseCondLoop_nil] at h
      split at h
      · exact condGroup_err_shape h
      · exact Except.noConfusion h
    | cons t ts' =>
      by_cases hc : (matchTok la 14 || matchTok la 15 || matchTok la 16) = true
      · rw [parseCondLoop_cons la t ts' hc] at h
        split at h
        · next e heq =>
          obtain ⟨m1, r1⟩ := e
          injection h with h'
          injection h' with e1 e2
          subst e1
          exact condGroup_err_shape heq
        · next la2 ts2 heq =>
          have hl2 : ts2.length ≤ n := by
            have := condGroup_ok_length heq
            simp at hlen
            omega
          exact ih la2 ts2 hl2 m r h
      · rw [parseCondLoop.eq_def, if_neg hc] at h
        exact Except.noConfusion h

theorem parseCondition_err_shape {la : Symbol} {ts : List Symbol} {m : String}
    {r : List Symbol} (h : parseCondition la ts = .error (m, r)) : errShape m := by
  cases h1 : condGroup la ts with
  | error e =>
    obtain ⟨m1, r1⟩ := e
    simp only [parseCondition, h1, bind, Except.bind] at h
    injection h with h'
    injection h' with e1 e2
    subst e1
    exact condGroup_err_shape h1
  | ok p =>
    obtain ⟨a, b⟩ := p
    simp only [parseCondition, h1, bind, Except.bind] at h
    exact condLoop_err_shape b.length a b le_rfl m r h

theorem parseWhereEnd_err_shape {la : Symbol} {ts : List Symbol} {m : String}
    {r : List Symbol} (h : parseWhereEnd la ts = .error (m, r)) : errShape m := by
  by_cases h13 : matchTok la 13 = true
  · simp only [parseWhereEnd] at h
    rw [if_pos h13] at h
    cases hpc : parseCondition (popTok ts).1 (popTok ts).2 with
    | error e =>
      obtain ⟨m1, r1⟩ := e
      simp only [hpc, bind, Except.bind] at h
      injection h with h'
      injection h' with e1 e2
      subst e1
      exact parseCondition_err_shape hpc
    | ok p =>
      obtain ⟨a, b⟩ := p
      simp only [hpc, bind, Except.bind] at h
      exact ⟨"Unexpected tokens after end of query", a, by decide, expectTok_err_shape h⟩
  · simp only [parseWhereEnd] at h
    rw [if_neg h13] at h
    simp only [bind, Except.bind] at h
    exact ⟨"Unexpected tokens after end of query", la, by decide, expectTok_err_shape h⟩

theorem parseFromRest_err_shape {la : Symbol} {ts : List Symbol} {m : String}
    {r : List Symbol} (h : parseFromRest la ts = .error (m, r)) : errShape m := by
  cases h1 : expectTok la ts 9 "Expected FROM" with
  | error e =>
    obtain ⟨m1, r1⟩ := e
    simp only [parseFromRest, h1, bind, Except.bind] at h
    injection h with h'
    injection h' with e1 e2
    subst e1
    exact ⟨"Expected FROM", la, by decide, expectTok_err_shape h1⟩
  | ok p =>
    obtain ⟨a, b⟩ := p
    cases h2 : parseIdentifierTok a b "Expected table name after FROM" with
    | error e =>
      obtain ⟨m1, r1⟩ := e
      simp only [parseFromRest, h1, h2, bind, Except.bind] at h
      injection h with h'
      injection h' with e1 e2
      subst e1
      exact ⟨"Expected table name after FROM", a, by decide,
        parseIdentifierTok_err_shape h2⟩
    | ok q =>
      obtain ⟨c, d⟩ := q
      simp only [parseFromRest, h1, h2, bind, Except.bind] at h
      exact parseWhereEnd_err_shape h

theorem parseSelectList_err_shape {la : Symbol} {ts : List Symbol} {m : String}
    {r : List Symbol} (h : parseSelectList la ts = .error (m, r)) : errShape m := by
  by_cases h5 : matchTok la 5 = true
  · simp only [parseSelectList] at h
    rw [if_pos h5] at h
    exact Except.noConfusion h
  · simp only [parseSelectList] at h
    rw [if_neg h5] at h
    cases h1 : parseIdentifierTok la ts "Expected field name in SELECT list" with
    | error e =>
      obtain ⟨m1, r1⟩ := e
      simp only [h1, bind, Except.bind] at h
      injection h with h'
      injection h' with e1 e2
      subst e1
      exact ⟨"Expected field name in SELECT list", la, by decide,
        parseIdentifierTok_err_shape h1⟩
    | ok p =>
      obtain ⟨a, b⟩ := p
      simp only [h1, bind, Except.bind] at h
      exact selLoop_err_shape b.length a b le_rfl m r h

theorem parseQuery_err_shape {ts : List Symbol} {m : String} {r : List Symbol}
    (h : parseQuery ts = .error (m, r)) : errShape m := by
  simp only [parseQuery] at h
  cases hp : popTok ts with
  | mk la0 ts0 =>
    rw [hp] at h
    simp only at h
    cases h1 : expectTok la0 ts0 7 "Expected SELECT" with
    | error e =>
      obtain ⟨m1, r1⟩ := e
      simp only [h1, bind, Except.bind] at h
      injection h with h'
      injection h' with e1 e2
      subst e1
      exact ⟨"Expected SELECT", la0, by decide, expectTok_err_shape h1⟩
    | ok p =>
      obtain ⟨a, b⟩ := p
      simp only [h1, bind, Except.bind] at h
      by_cases h8 : matchTok a 8 = true
      · rw [if_pos h8] at h
        cases hp2 : popTok b with
        | mk c d =>
          rw [hp2] at h
          simp only at h
          cases hsl : parseSelectList c d with
          | error e =>
            obtain ⟨m1, r1⟩ := e
            simp only [hsl, bind, Except.bind] at h
            injection h with h'
            injection h' with e1 e2
            subst e1
            exact parseSelectList_err_shape hsl
          | ok q =>
            obtain ⟨la2, ts2⟩ := q
            simp only [hsl, bind, Except.bind] at h
            exact parseFromRest_err_shape h
      · rw [if_neg h8] at h
        simp only at h
        cases hsl : parseSelectList a b with
        | error e =>
          obtain ⟨m1, r1⟩ := e
          simp only [hsl, bind, Except.bind] at h
          injection h with h'
          injection h' with e1 e2
          subst e1
          exact parseSelectList_err_shape hsl
        | ok q =>
          obtain ⟨la2, ts2⟩ := q
          simp only [hsl, bind, Except.bind] at h
          exact parseFromRest_err_shape h

/-- C8: every syntax error message is an expectation text from the fixed
list, followed by ` but found: ` and the rendering `#<kind>` of the
offending token, with the parenthesized payload present exactly when the
token carries one; in particular `SELECT FROM users` fails mentioning the
select-list field name and the observed FROM token `#9`. -/
theorem C8_error_message_format :
    (∀ (ts : List Symbol) (m : String) (rest : List Symbol),
        parseQuery ts = .error (m, rest) →
        ∃ e t, e ∈ expectationMsgs ∧ m = e ++ " but found: " ++ tokenName t)
    ∧ (∀ t : Symbol, tokenName t =
        "#" ++ toString t.sym ++
          (match t.value with
           | none => ""
           | some p => " (" ++ renderPayload p ++ ")"))
    ∧ pipelineMsg "SELECT FROM users" =
        some "Expected field name in SELECT list but found: #9" := by
  refine ⟨?_, ?_, by decide⟩
  · intro ts m rest h
    exact parseQuery_err_shape h
  · intro t
    obtain ⟨k, l, c, v⟩ := t
    cases v <;> rfl

theorem C8_error_message_format_witness :
    parseQuery ([⟨9, 0, 0, none⟩] : List Symbol) =
        .error ("Expected SELECT" ++ " but found: " ++ tokenName ⟨9, 0, 0, none⟩, [])
    ∧ ∃ e t, e ∈ expectationMsgs ∧
        ("Expected SELECT" ++ " but found: " ++ tokenName (⟨9, 0, 0, none⟩ : Symbol)) =
          e ++ " but found: " ++ tokenName t :=
  ⟨by decide,
    C8_error_message_format.1 [⟨9, 0, 0, none⟩] _ [] (by decide)⟩

/-!
## Claim C9: the decision depends only on token kinds

Two runs of the validator on kind-equal streams are related step by step:
payloads and positions never influence control flow.
-/

/-- Kind-level relation between two parse results: both succeed with
kind-equal lookahead and remainder, or both fail with kind-equal
remainders. -/
def PRel : PRes (Symbol × List Symbol) → PRes (Symbol × List Symbol) → Prop
  | .ok p, .ok q => p.1.sym = q.1.sym ∧ p.2.map Symbol.sym = q.2.map Symbol.sym
  | .error e, .error e2 => e.2.map Symbol.sym = e2.2.map Symbol.sym
  | _, _ => False

theorem popTok_rel {ts ts' : List Symbol} (h : ts.map Symbol.sym = ts'.map Symbol.sym) :
    (popTok ts).1.sym = (popTok ts').1.sym ∧
      (popTok ts).2.map Symbol.sym = (popTok ts').2.map Symbol.sym := by
  cases ts with
  | nil =>
    cases ts' with
    | nil => exact ⟨rfl, rfl⟩
    | cons t' r' => simp at h
  | cons t r =>
    cases ts' with
    | nil => simp at h
    | cons t' r' =>
      simp only [List.map_cons, List.cons.injEq] at h
      exact ⟨h.1, h.2⟩

theorem map_sym_length {ts ts' : List Symbol} (h : ts.map Symbol.sym = ts'.map Symbol.sym) :
    ts.length = ts'.length := by
  have := congrArg List.length h
  simpa using this

theorem expectTok_rel {la la' : Symbol} {ts ts' : List Symbol} (k : Nat) (msg msg' : String)
    (hs : la.sym = la'.sym) (h : ts.map Symbol.sym = ts'.map Symbol.sym) :
    PRel (expectTok la ts k msg) (expectTok la' ts' k msg') := by
  have hm : matchTok la k = matchTok la' k := by simp [matchTok, hs]
  simp only [expectTok]
  by_cases hb : matchTok la k = true
  · rw [if_pos hb, if_pos (hm ▸ hb)]
    exact popTok_rel h
  · have hb' : ¬ matchTok la' k = true := by rw [← hm]; exact hb
    rw [if_neg hb, if_neg hb']
    exact h

theorem parseIdentifierTok_rel {la la' : Symbol} {ts ts' : List Symbol} (msg msg' : String)
    (hs : la.sym = la'.sym) (h : ts.map Symbol.sym = ts'.map Symbol.sym) :
    PRel (parseIdentifierTok la ts msg) (parseIdentifierTok la' ts' msg') := by
  have hm : (matchTok la 29 || matchTok la 28) = (matchTok la' 29 || matchTok la' 28) := by
    simp [matchTok, hs]
  simp only [parseIdentifierTok]
  by_cases hb : (matchTok la 29 || matchTok la 28) = true
  · rw [if_pos hb, if_pos (hm ▸ hb)]
    exact popTok_rel h
  · have hb' : ¬ (matchTok la' 29 || matchTok la' 28) = true := by rw [← hm]; exact hb
    rw [if_neg hb, if_neg hb']
    exact h

theorem parseOperand_rel {la la' : Symbol} {ts ts' : List Symbol}
    (hs : la.sym = la'.sym) (h : ts.map Symbol.sym = ts'.map Symbol.sym) :
    PRel (parseOperand la ts) (parseOperand la' ts') := by
  have h1 : (matchTok la 29 || matchTok la 28) = (matchTok la' 29 || matchTok la' 28) := by
    simp [matchTok, hs]
  have h2 : (matchTok la 31 || matchTok la 30 || matchTok la 27 || matchTok la 20) =
      (matchTok la' 31 || matchTok la' 30 || matchTok la' 27 || matchTok la' 20) := by
    simp [matchTok, hs]
  simp only [parseOperand]
  by_cases hb1 : (matchTok la 29 || matchTok la 28) = true
  · rw [if_pos hb1, if_pos (h1 ▸ hb1)]
    exact popTok_rel h
  · have hb1' : ¬ (matchTok la' 29 || matchTok la' 28) = true := by rw [← h1]; exact hb1
    rw [if_neg hb1, if_neg hb1']
    by_cases hb2 : (matchTok la 31 || matchTok la 30 || matchTok la 27 || matchTok la 20) = true
    · rw [if_pos hb2, if_pos (h2 ▸ hb2)]
      exact popTok_rel h
    · have hb2' :
          ¬ (matchTok la' 31 || matchTok la' 30 || matchTok la' 27 || matchTok la' 20) = true := by
        rw [← h2]
        exact hb2
      rw [if_neg hb2, if_neg hb2']
      exact h

theorem condGroup_rel {la la' : Symbol} {ts ts' : List Symbol}
    (hs : la.sym = la'.sym) (h : ts.map Symbol.sym = ts'.map Symbol.sym) :
    PRel (condGroup la ts) (condGroup la' ts') := by
  have h1 := parseOperand_rel hs h
  cases e1 : parseOperand la ts with
  | error a =>
    cases e1' : parseOperand la' ts' with
    | ok p' => rw [e1, e1'] at h1; exact h1.elim
    | error a' =>
      rw [e1, e1'] at h1
      simp only [condGroup, e1, e1', bind, Except.bind]
      exact h1
  | ok p =>
    obtain ⟨a, b⟩ := p
    cases e1' : parseOperand la' ts' with
    | error a' => rw [e1, e1'] at h1; exact h1.elim
    | ok p' =>
      obtain ⟨a', b'⟩ := p'
      rw [e1, e1'] at h1
      obtain ⟨hsa, hma⟩ := h1
      have h2 := expectTok_rel 6 "Expected comparison operator"
        "Expected comparison operator" hsa hma
      cases e2 : expectTok a b 6 "Expected comparison operator" with
      | error c =>
        cases e2' : expectTok a' b' 6 "Expected comparison operator" with
        | ok q' => rw [e2, e2'] at h2; exact h2.elim
        | error c' =>
          rw [e2, e2'] at h2
          simp only [condGroup, e1, e1', e2, e2', bind, Except.bind]
          exact h2
      | ok q =>
        obtain ⟨c, d⟩ := q
        cases e2' : expectTok a' b' 6 "Expected comparison operator" with
        | error c' => rw [e2, e2'] at h2; exact h2.elim
        | ok q' =>
          obtain ⟨c', d'⟩ := q'
          rw [e2, e2'] at h2
          obtain ⟨hsc, hmc⟩ := h2
          simp only [condGroup, e1, e1', e2, e2', bind, Except.bind]
          exact parseOperand_rel hsc hmc

theorem selLoop_rel : ∀ (n : Nat) (la la' : Symbol) (ts ts' : List Symbol), ts.length ≤ n →
    la.sym = la'.sym → ts.map Symbol.sym = ts'.map Symbol.sym →
    PRel (parseSelectLoop la ts) (parseSelectLoop la' ts') := by
  intro n
  induction n with
  | zero =>
    intro la la' ts ts' hlen hs h
    have hts : ts = [] := List.eq_nil_of_length_eq_zero (Nat.le_zero.mp hlen)
    subst hts
    have hts' : ts' = [] := by
      have := map_sym_length h
      simp at this
      exact List.eq_nil_of_length_eq_zero this.symm
    subst hts'
    have hm : matchTok la 3 = matchTok la' 3 := by simp [matchTok, hs]
    rw [parseSelectLoop_nil, parseSelectLoop_nil]
    by_cases h3 : matchTok la 3 = true
    · rw [if_pos h3, if_pos (hm ▸ h3)]
      exact parseIdentifierTok_rel _ _ rfl rfl
    · have h3' : ¬ matchTok la' 3 = true := by rw [← hm]; exact h3
      rw [if_neg h3, if_neg h3']
      exact ⟨hs, rfl⟩
  | succ n ih =>
    intro la la' ts ts' hlen hs h
    have hm : matchTok la 3 = matchTok la' 3 := by simp [matchTok, hs]
    cases ts with
    | nil =>
      cases ts' with
      | cons t' r' => simp at h
      | nil =>
        rw [parseSelectLoop_nil, parseSelectLoop_nil]
        by_cases h3 : matchTok la 3 = true
        · rw [if_pos h3, if_pos (hm ▸ h3)]
          exact parseIdentifierTok_rel _ _ rfl rfl
        · have h3' : ¬ matchTok la' 3 = true := by rw [← hm]; exact h3
          rw [if_neg h3, if_neg h3']
          exact ⟨hs, rfl⟩
    | cons t r =>
      cases ts' with
      | nil => simp at h
      | cons t' r' =>
        simp only [List.map_cons, List.cons.injEq] at h
        obtain ⟨ht, hr⟩ := h
        by_cases h3 : matchTok la 3 = true
        · rw [parseSelectLoop_cons la t r h3, parseSelectLoop_cons la' t' r' (hm ▸ h3)]
          have hpi := parseIdentifierTok_rel "Expected field name after comma"
            "Expected field name after comma" ht hr
          split
          · next e heq =>
            split
            · next e' heq' =>
              rw [heq, heq'] at hpi
              exact hpi
            · next la2' ts2' heq' =>
              rw [heq, heq'] at hpi
              exact hpi.elim
          · next la2 ts2 heq =>
            split
            · next e' heq' =>
              rw [heq, heq'] at hpi
              exact hpi.elim
            · next la2' ts2' heq' =>
              rw [heq, heq'] at hpi
              obtain ⟨hs2, hm2⟩ := hpi
              have hl2 : ts2.length ≤ n := by
                have := parseIdentifierTok_ok_length heq
                simp at hlen
                omega
              exact ih la2 la2' ts2 ts2' hl2 hs2 hm2
        · have h3' : ¬ matchTok la' 3 = true := by rw [← hm]; exact h3
          rw [parseSelectLoop.eq_def, parseSelectLoop.eq_def, if_neg h3, if_neg h3']
          exact ⟨hs, by simp [ht, hr]⟩

theorem condLoop_rel : ∀ (n : Nat) (la la' : Symbol) (ts ts' : List Symbol), ts.length ≤ n →
    la.sym = la'.sym → ts.map Symbol.sym = ts'.map Symbol.sym →
    PRel (parseCondLoop la ts) (parseCondLoop la' ts') := by
  intro n
  induction n with
  | zero =>
    intro la la' ts ts' hlen hs h
    have hts : ts = [] := List.eq_nil_of_length_eq_zero (Nat.le_zero.mp hlen)
    subst hts
    have hts' : ts' = [] := by
      have := map_sym_length h
      simp at this
      exact List.eq_nil_of_length_eq_zero this.symm
    subst hts'
    have hm : (matchTok la 14 || matchTok la 15 || matchTok la 16) =
        (matchTok la' 14 || matchTok la' 15 || matchTok la' 16) := by
      simp [matchTok, hs]
    rw [parseCondLoop_nil, parseCondLoop_nil]
    by_cases hc : (matchTok la 14 || matchTok la 15 || matchTok la 16) = true
    · rw [if_pos hc, if_pos (hm ▸ hc)]
      exact condGroup_rel rfl rfl
    · have hc' : ¬ (matchTok la' 14 || matchTok la' 15 || matchTok la' 16) = true := by
        rw [← hm]
        exact hc
      rw [if_neg hc, if_neg hc']
      exact ⟨hs, rfl⟩
  | succ n ih =>
    intro la la' ts ts' hlen hs h
    have hm : (matchTok la 14 || matchTok la 15 || matchTok la 16) =
        (matchTok la' 14 || matchTok la' 15 || matchTok la' 16) := by
      simp [matchTok, hs]
    cases ts with
    | nil =>
      cases ts' with
      | cons t' r' => simp at h
      | nil =>
        rw [parseCondLoop_nil, parseCondLoop_nil]
        by_cases hc : (matchTok la 14 || matchTok la 15 || matchTok la 16) = true
        · rw [if_pos hc, if_pos (hm ▸ hc)]
          exact condGroup_rel rfl rfl
        · have hc' : ¬ (matchTok la' 14 || matchTok la' 15 || matchTok la' 16) = true := by
            rw [← hm]
            exact hc
          rw [if_neg hc, if_neg hc']
          exact ⟨hs, rfl⟩
    | cons t r =>
      cases ts' with
      | nil => simp at h
      | cons t' r' =>
        simp only [List.map_cons, List.cons.injEq] at h
        obtain ⟨ht, hr⟩ := h
        by_cases hc : (matchTok la 14 || matchTok la 15 || matchTok la 16) = true
        · rw [parseCondLoop_cons la t r hc, parseCondLoop_cons la' t' r' (hm ▸ hc)]
          have hcg := condGroup_rel ht hr
          split
          · next e heq =>
            split
            · next e' heq' =>
              rw [heq, heq'] at hcg
              exact hcg
            · next la2' ts2' heq' =>
              rw [heq, heq'] at hcg
              exact hcg.elim
          · next la2 ts2 heq =>
            split
            · next e' heq' =>
              rw [heq, heq'] at hcg
              exact hcg.elim
            · next la2' ts2' heq' =>
              rw [heq, heq'] at hcg
              obtain ⟨hs2, hm2⟩ := hcg
              have hl2 : ts2.length ≤ n := by
                have := condGroup_ok_length heq
                simp at hlen
                omega
              exact ih la2 la2' ts2 ts2' hl2 hs2 hm2
        · have hc' : ¬ (matchTok la' 14 || matchTok la' 15 || matchTok la' 16) = true := by
            rw [← hm]
            exact hc
          rw [parseCondLoop.eq_def, parseCondLoop.eq_def, if_neg hc, if_neg hc']
          exact ⟨hs, by simp [ht, hr]⟩

theorem parseCondition_rel {la la' : Symbol} {ts ts' : List Symbol}
    (hs : la.sym = la'.sym) (h : ts.map Symbol.sym = ts'.map Symbol.sym) :
    PRel (parseCondition la ts) (parseCondition la' ts') := by
  have hcg := condGroup_rel hs h
  cases e1 : condGroup la ts with
  | error a =>
    cases e1' : condGroup la' ts' with
    | ok p' => rw [e1, e1'] at hcg; exact hcg.elim
    | error a' =>
      rw [e1, e1'] at hcg
      simp only [parseCondition, e1, e1', bind, Except.bind]
      exact hcg
  | ok p =>
    obtain ⟨a, b⟩ := p
    cases e1' : condGroup la' ts' with
    | error a' => rw [e1, e1'] at hcg; exact hcg.elim
    | ok p' =>
      obtain ⟨a', b'⟩ := p'
      rw [e1, e1'] at hcg
      obtain ⟨hsa, hma⟩ := hcg
      simp only [parseCondition, e1, e1', bind, Except.bind]
      exact condLoop_rel b.length a a' b b' le_rfl hsa hma

theorem parseWhereEnd_rel {la la' : Symbol} {ts ts' : List Symbol}
    (hs : la.sym = la'.sym) (h : ts.map Symbol.sym = ts'.map Symbol.sym) :
    PRel (parseWhereEnd la ts) (parseWhereEnd la' ts') := by
  have hm : matchTok la 13 = matchTok la' 13 := by simp [matchTok, hs]
  simp only [parseWhereEnd]
  by_cases h13 : matchTok la 13 = true
  · rw [if_pos h13, if_pos (hm ▸ h13)]
    have hp := popTok_rel h
    have hpc := parseCondition_rel hp.1 hp.2
    cases e1 : parseCondition (popTok ts).1 (popTok ts).2 with
    | error a =>
      cases e1' : parseCondition (popTok ts').1 (popTok ts').2 with
      | ok p' => rw [e1, e1'] at hpc; exact hpc.elim
      | error a' =>
        rw [e1, e1'] at hpc
        simp only [e1, e1', bind, Except.bind]
        exact hpc
    | ok p =>
      obtain ⟨a, b⟩ := p
      cases e1' : parseCondition (popTok ts').1 (popTok ts').2 with
      | error a' => rw [e1, e1'] at hpc; exact hpc.elim
      | ok p' =>
        obtain ⟨a', b'⟩ := p'
        rw [e1, e1'] at hpc
        obtain ⟨hsa, hma⟩ := hpc
        simp only [e1, e1', bind, Except.bind]
        exact expectTok_rel 0 _ _ hsa hma
  · have h13' : ¬ matchTok la' 13 = true := by rw [← hm]; exact h13
    rw [if_neg h13, if_neg h13']
    simp only [bind, Except.bind]
    exact expectTok_rel 0 _ _ hs h

theorem parseFromRest_rel {la la' : Symbol} {ts ts' : List Symbol}
    (hs : la.sym = la'.sym) (h : ts.map Symbol.sym = ts'.map Symbol.sym) :
    PRel (parseFromRest la ts) (parseFromRest la' ts') := by
  have he := expectTok_rel 9 "Expected FROM" "Expected FROM" hs h
  cases e1 : expectTok la ts 9 "Expected FROM" with
  | error a =>
    cases e1' : expectTok la' ts' 9 "Expected FROM" with
    | ok p' => rw [e1, e1'] at he; exact he.elim
    | error a' =>
      rw [e1, e1'] at he
      simp only [parseFromRest, e1, e1', bind, Except.bind]
      exact he
  | ok p =>
    obtain ⟨a, b⟩ := p
    cases e1' : expectTok la' ts' 9 "Expected FROM" with
    | error a' => rw [e1, e1'] at he; exact he.elim
    | ok p' =>
      obtain ⟨a', b'⟩ := p'
      rw [e1, e1'] at he
      obtain ⟨hsa, hma⟩ := he
      have hpi := parseIdentifierTok_rel "Expected table name after FROM"
        "Expected table name after FROM" hsa hma
      cases e2 : parseIdentifierTok a b "Expected table name after FROM" with
      | error c =>
        cases e2' : parseIdentifierTok a' b' "Expected table name after FROM" with
        | ok q' => rw [e2, e2'] at hpi; exact hpi.elim
        | error c' =>
          rw [e2, e2'] at hpi
          simp only [parseFromRest, e1, e1', e2, e2', bind, Except.bind]
          exact hpi
      | ok q =>
        obtain ⟨c, d⟩ := q
        cases e2' : parseIdentifierTok a' b' "Expected table name after FROM" with
        | error c' => rw [e2, e2'] at hpi; exact hpi.elim
        | ok q' =>
          obtain ⟨c', d'⟩ := q'
          rw [e2, e2'] at hpi
          obtain ⟨hsc, hmc⟩ := hpi
          simp only [parseFromRest, e1, e1', e2, e2', bind, Except.bind]
          exact parseWhereEnd_rel hsc hmc

theorem parseSelectList_rel {la la' : Symbol} {ts ts' : List Symbol}
    (hs : la.sym = la'.sym) (h : ts.map Symbol.sym = ts'.map Symbol.sym) :
    PRel (parseSelectList la ts) (parseSelectList la' ts') := by
  have hm : matchTok la 5 = matchTok la' 5 := by simp [matchTok, hs]
  simp only [parseSelectList]
  by_cases h5 : matchTok la 5 = true
  · rw [if_pos h5, if_pos (hm ▸ h5)]
    exact popTok_rel h
  · have h5' : ¬ matchTok la' 5 = true := by rw [← hm]; exact h5
    rw [if_neg h5, if_neg h5']
    have hpi := parseIdentifierTok_rel "Expected field name in SELECT list"
      "Expected field name in SELECT list" hs h
    cases e1 : parseIdentifierTok la ts "Expected field name in SELECT list" with
    | error a =>
      cases e1' : parseIdentifierTok la' ts' "Expected field name in SELECT list" with
      | ok p' => rw [e1, e1'] at hpi; exact hpi.elim
      | error a' =>
        rw [e1, e1'] at hpi
        simp only [e1, e1', bind, Except.bind]
        exact hpi
    | ok p =>
      obtain ⟨a, b⟩ := p
      cases e1' : parseIdentifierTok la' ts' "Expected field name in SELECT list" with
      | error a' => rw [e1, e1'] at hpi; exact hpi.elim
      | ok p' =>
        obtain ⟨a', b'⟩ := p'
        rw [e1, e1'] at hpi
        obtain ⟨hsa, hma⟩ := hpi
        simp only [e1, e1', bind, Except.bind]
        exact selLoop_rel b.length a a' b b' le_rfl hsa hma

theorem parseQuery_rel (ts ts' : List Symbol)
    (h : ts.map Symbol.sym = ts'.map Symbol.sym) :
    PRel (parseQuery ts) (parseQuery ts') := by
  have hp := popTok_rel h
  simp only [parseQuery]
  cases hp1 : popTok ts with
  | mk la0 ts0 =>
    cases hp1' : popTok ts' with
    | mk la0' ts0' =>
      rw [hp1, hp1'] at hp
      obtain ⟨hs0, hm0⟩ := hp
      simp only
      have he := expectTok_rel 7 "Expected SELECT" "Expected SELECT" hs0 hm0
      cases e1 : expectTok la0 ts0 7 "Expected SELECT" with
      | error a =>
        cases e1' : expectTok la0' ts0' 7 "Expected SELECT" with
        | ok p' => rw [e1, e1'] at he; exact he.elim
        | error a' =>
          rw [e1, e1'] at he
          simp only [e1, e1', bind, Except.bind]
          exact he
      | ok p =>
        obtain ⟨a, b⟩ := p
        cases e1' : expectTok la0' ts0' 7 "Expected SELECT" with
        | error a' => rw [e1, e1'] at he; exact he.elim
        | ok p' =>
          obtain ⟨a', b'⟩ := p'
          rw [e1, e1'] at he
          obtain ⟨hsa, hma⟩ := he
          simp only [e1, e1', bind, Except.bind]
          have hsa2 : a.sym = a'.sym := hsa
          have hm8 : matchTok a 8 = matchTok a' 8 := by simp [matchTok, hsa2]
          by_cases h8 : matchTok a 8 = true
          · rw [if_pos h8, if_pos (hm8 ▸ h8)]
            have hp2 := popTok_rel hma
            cases hp2a : popTok b with
            | mk c d =>
              cases hp2b : popTok b' with
              | mk c' d' =>
                rw [hp2a, hp2b] at hp2
                obtain ⟨hsc, hmc⟩ := hp2
                simp only
                have hsl := parseSelectList_rel hsc hmc
                cases e2 : parseSelectList c d with
                | error g =>
                  cases e2' : parseSelectList c' d' with
                  | ok q' => rw [e2, e2'] at hsl; exact hsl.elim
                  | error g' =>
                    rw [e2, e2'] at hsl
                    simp only [e2, e2', bind, Except.bind]
                    exact hsl
                | ok q =>
                  obtain ⟨u, v⟩ := q
                  cases e2' : parseSelectList c' d' with
                  | error g' => rw [e2, e2'] at hsl; exact hsl.elim
                  | ok q' =>
                    obtain ⟨u', v'⟩ := q'
                    rw [e2, e2'] at hsl
                    obtain ⟨hsu, hmu⟩ := hsl
                    simp only [e2, e2', bind, Except.bind]
                    exact parseFromRest_rel hsu hmu
          · have h8' : ¬ matchTok a' 8 = true := by rw [← hm8]; exact h8
            rw [if_neg h8, if_neg h8']
            simp only
            have hsl := parseSelectList_rel hsa hma
            cases e2 : parseSelectList a b with
            | error g =>
              cases e2' : parseSelectList a' b' with
              | ok q' => rw [e2, e2'] at hsl; exact hsl.elim
              | error g' =>
                rw [e2, e2'] at hsl
                simp only [e2, e2', bind, Except.bind]
                exact hsl
            | ok q =>
              obtain ⟨u, v⟩ := q
              cases e2' : parseSelectList a' b' with
              | error g' => rw [e2, e2'] at hsl; exact hsl.elim
              | ok q' =>
                obtain ⟨u', v'⟩ := q'
                rw [e2, e2'] at hsl
                obtain ⟨hsu, hmu⟩ := hsl
                simp only [e2, e2', bind, Except.bind]
                exact parseFromRest_rel hsu hmu

/-- C9: the accept/reject decision of the validator depends only on the
sequence of token kinds — for kind-equal streams, both runs accept or both
reject, and two rejecting runs stop at the same position (kind-equal unread
remainders); payloads and positions never steer control flow. -/
theorem C9_kind_only_decision (ts ts' : List Symbol)
    (h : ts.map Symbol.sym = ts'.map Symbol.sym) :
    ((parseQuery ts).isOk = (parseQuery ts').isOk)
    ∧ ∀ (m : String) (r : List Symbol) (m' : String) (r' : List Symbol),
        parseQuery ts = .error (m, r) → parseQuery ts' = .error (m', r') →
        r.map Symbol.sym = r'.map Symbol.sym := by
  have hrel := parseQuery_rel ts ts' h
  constructor
  · cases hq : parseQuery ts with
    | error e =>
      cases hq' : parseQuery ts' with
      | error e' => rfl
      | ok p => rw [hq, hq'] at hrel; exact hrel.elim
    | ok p =>
      cases hq' : parseQuery ts' with
      | error e' => rw [hq, hq'] at hrel; exact hrel.elim
      | ok p' => rfl
  · intro m r m' r' hq hq'
    rw [hq, hq'] at hrel
    exact hrel

theorem C9_kind_only_decision_witness :
    ([⟨9, 0, 0, none⟩] : List Symbol).map Symbol.sym =
        ([⟨9, 4, 17, some (.str "FROM")⟩] : List Symbol).map Symbol.sym
    ∧ (parseQuery [⟨9, 0, 0, none⟩]).isOk =
        (parseQuery [⟨9, 4, 17, some (.str "FROM")⟩]).isOk :=
  ⟨by decide, (C9_kind_only_decision _ _ (by decide)).1⟩

end Oaql2
